import Mathlib

/-!
Verification development for the `pipe_supertask` graph builder.

This file gives a shallow embedding of the two source files
`python/lsst/pipe/supertask/graphBuilder.py` and
`python/lsst/pipe/supertask/quantum.py`, and proves properties of the
embedded definitions.

Modelling conventions:
* Python `dict` objects are embedded as insertion-ordered association
  lists (`List (κ × α)`): assignment `d[k] = v` updates the value in
  place when the key is present and appends the binding at the end
  otherwise, which is exactly the observable behaviour (including
  iteration order) of a Python `dict`.
* Python `set` objects whose iteration order is never observed by the
  source are embedded as `Finset`.
* A row returned by the registry carries a data id (an association
  list of dimension-column name to value, standing for `dict.items()`)
  and a total assignment of a `DatasetRef` to every `DatasetType`
  (the source indexes `row.datasetRefs[dsType]` without handling
  `KeyError`, so it operates only on rows where the lookup succeeds).
* External collaborators (task factory, per-class dataset-type
  queries, the data-unit link table) enter as explicit parameters;
  the registry query result enters as the list of rows itself, since
  the query engine is outside the repository.
* Machine integers do not occur: the source manipulates only
  dictionaries, lists, strings and opaque identifiers.
-/

/-- A butler `DatasetType`: a named kind of data product.  The `extra`
field stands for the remaining payload of the Python object (storage
class and the like), so that distinct objects may share a name. -/
structure DatasetType where
  name : String
  extra : String := ""
deriving DecidableEq, Repr

/-- A data id (`dataId`): an association of dimension-column names to
values, standing for the items of the Python dict. -/
abbrev DataId := List (String × Nat)

/-- A butler `DatasetRef`: a dataset type at a data id, together with
the optional materialized identity `id` (`None` in Python when the
dataset does not yet exist in the registry). -/
structure DatasetRef where
  datasetType : DatasetType
  dataId : DataId
  id : Option Nat
deriving DecidableEq, Repr

/-- One row of the `registry.selectDataUnits` result: a full data id
and, for every dataset type, the dataset reference realized at this
row's coordinates. -/
structure Row where
  dataId : DataId
  datasetRefs : DatasetType → DatasetRef

/-- The quantum-defining part of a task configuration:
`config.quantum.units`, the list of data-unit names. -/
structure QuantumConfig where
  units : List String
deriving DecidableEq, Repr

/-- A `TaskDef`: task name, configuration, optionally loaded task
class (classes are identified by an opaque numeral) and label. -/
structure TaskDef where
  taskName : String
  config : QuantumConfig
  taskClass : Option Nat
  label : String := ""
deriving DecidableEq, Repr

/-- The `_TaskDatasetTypes` named tuple of `graphBuilder.py`: a task
definition with its input and output dataset types. -/
structure TaskDatasetTypes where
  taskDef : TaskDef
  inputs : List DatasetType
  outputs : List DatasetType
deriving DecidableEq, Repr

/-- A quantum as assembled by `GraphBuilder._makeGraph`: the dataset
references passed to `addPredictedInput` and `addOutput`, in call
order. -/
structure QuantumModel where
  inputs : List DatasetRef
  outputs : List DatasetRef
deriving DecidableEq, Repr

/-- A `QuantumGraphNodes` entry: one task definition with its list of
quanta. -/
structure QuantumGraphNodes where
  taskDef : TaskDef
  quanta : List QuantumModel
deriving DecidableEq, Repr

/-- Errors surfaced by the graph builder that are reachable in the
embedded fragment: `OutputExistsError taskName refs`. -/
inductive BuildError where
  | outputExists (taskName : String) (refs : List DatasetRef)
deriving DecidableEq, Repr

/-- External collaborators of `GraphBuilder`: the task factory
(`loadTaskClass`), and the per-class `getInputDatasetTypes` and
`getOutputDatasetTypes` class methods, defunctionalized over the
opaque class identifier. -/
structure TaskEnv where
  loadTaskClass : String → Nat × String
  getInputDatasetTypes : Nat → QuantumConfig → List DatasetType
  getOutputDatasetTypes : Nat → QuantumConfig → List DatasetType

/-- Lookup in an insertion-ordered association list (Python `d[k]`,
as an `Option`). -/
def alistFind [DecidableEq κ] (k : κ) : List (κ × α) → Option α
  | [] => none
  | (k', v) :: rest => if k' = k then some v else alistFind k rest

/-- Assignment in an insertion-ordered association list (Python
`d[k] = v`): update in place when the key is present, append the new
binding otherwise. -/
def alistSet [DecidableEq κ] (k : κ) (v : α) : List (κ × α) → List (κ × α)
  | [] => [(k, v)]
  | (k', v') :: rest => if k' = k then (k', v) :: rest else (k', v') :: alistSet k v rest

/-- The keys of an association list, in insertion order (Python
`list(d)`). -/
def alistKeys (m : List (κ × α)) : List κ := m.map Prod.fst

/-- The values of an association list, in insertion order (Python
`list(d.values())`). -/
def alistValues (m : List (κ × α)) : List α := m.map Prod.snd

/-- Python's ordering on `(str, int)` pairs: lexicographic. -/
def pairLeb (a b : String × Nat) : Bool :=
  a.1 < b.1 || (a.1 = b.1 && a.2 ≤ b.2)

/-- Insert one pair into a sorted list of pairs. -/
def insertPair (x : String × Nat) : DataId → DataId
  | [] => [x]
  | y :: ys => if pairLeb x y then x :: y :: ys else y :: insertPair x ys

/-- Python `sorted` on a list of `(str, int)` pairs (insertion sort;
only the ordering matters). -/
def sortPairs : DataId → DataId
  | [] => []
  | x :: xs => insertPair x (sortPairs xs)

/-- `_dataRefKey(dataRef)` from `GraphBuilder._makeGraph`:
`tuple(sorted(dataRef.dataId.items()))`, the coordinate identity under
which dataset references are deduplicated. -/
def dataRefKey (r : DatasetRef) : DataId := sortPairs r.dataId

/-- `GraphBuilder._loadTaskClass`: load the task class and make the
task name fully qualified on a copy, leaving an already-loaded
definition untouched.  (This is the value-level result; object
identity is treated separately by `loadTaskClassHeap`.) -/
def loadTaskClassPure (env : TaskEnv) (taskDef : TaskDef) : TaskDef :=
  match taskDef.taskClass with
  | none =>
      let c := env.loadTaskClass taskDef.taskName
      { taskDef with taskClass := some c.1, taskName := c.2 }
  | some _ => taskDef

/-- A heap of `TaskDef` objects, used to track Python object identity
and mutation in `GraphBuilder._loadTaskClass`: references are
numerals, `next` is the next fresh reference. -/
structure TDHeap where
  data : Nat → TaskDef
  next : Nat

/-- Read a heap cell. -/
def heapGet (h : TDHeap) (r : Nat) : TaskDef := h.data r

/-- Overwrite a heap cell (a Python attribute assignment on the object
behind reference `r`). -/
def heapSet (h : TDHeap) (r : Nat) (d : TaskDef) : TDHeap :=
  { h with data := fun r' => if r' = r then d else h.data r' }

/-- Allocate a fresh object holding `d` (`copy.copy`). -/
def heapAlloc (h : TDHeap) (d : TaskDef) : Nat × TDHeap :=
  (h.next, { data := fun r' => if r' = h.next then d else h.data r', next := h.next + 1 })

/-- `GraphBuilder._loadTaskClass` with explicit object identity: the
argument is a reference into the heap; the result is the returned
reference and the heap after the call.  When the class is unresolved
the source rebinds the local variable to `copy.copy(taskDef)` and
performs both attribute assignments on the copy. -/
def loadTaskClassHeap (env : TaskEnv) (h : TDHeap) (r : Nat) : Nat × TDHeap :=
  match (heapGet h r).taskClass with
  | none =>
      let c := env.loadTaskClass (heapGet h r).taskName
      let a := heapAlloc h (heapGet h r)
      let h2 := heapSet a.2 a.1 { heapGet a.2 a.1 with taskClass := some c.1 }
      let h3 := heapSet h2 a.1 { heapGet h2 a.1 with taskName := c.2 }
      (a.1, h3)
  | some _ => (r, h)

/-- Register a list of dataset types in the `allDatasetTypes` map of
`_makeFullIODatasetTypes` (`allDatasetTypes[dsType.name] = dsType`,
left to right). -/
def registerTypes (l : List DatasetType) (m : List (String × DatasetType)) :
    List (String × DatasetType) :=
  match l with
  | [] => m
  | ds :: rest => registerTypes rest (alistSet ds.name ds m)

/-- The `allDatasetTypes` name-to-type map built by
`_makeFullIODatasetTypes`: every task registers its inputs and then
its outputs, tasks in order, later registrations overwriting earlier
ones. -/
def allDatasetTypesFold (m : List (String × DatasetType)) :
    List TaskDatasetTypes → List (String × DatasetType)
  | [] => m
  | t :: rest => allDatasetTypesFold (registerTypes t.outputs (registerTypes t.inputs m)) rest

/-- Names added to the `inputs` name set by the loop of
`_makeFullIODatasetTypes` (`inputs.add(dsType.name)`). -/
def inputNamesFold (s : Finset String) : List TaskDatasetTypes → Finset String
  | [] => s
  | t :: rest => inputNamesFold (t.inputs.foldl (fun s' ds => insert ds.name s') s) rest

/-- Names added to the `outputs` name set by the loop of
`_makeFullIODatasetTypes` (`outputs.add(dsType.name)`). -/
def outputNamesFold (s : Finset String) : List TaskDatasetTypes → Finset String
  | [] => s
  | t :: rest => outputNamesFold (t.outputs.foldl (fun s' ds => insert ds.name s') s) rest

/-- `GraphBuilder._makeFullIODatasetTypes`: the full input and output
dataset-type sets of the pipeline.  After collecting the name sets and
the name-to-type map, `inputs -= outputs` removes dataset types
produced inside the pipeline, and the name sets are mapped back to
dataset types through `allDatasetTypes`.  (The `.getD` default is
unreachable: every collected name is a key of the map.) -/
def makeFullIODatasetTypes (taskDatasets : List TaskDatasetTypes) :
    Finset DatasetType × Finset DatasetType :=
  let all := allDatasetTypesFold [] taskDatasets
  let inputs := inputNamesFold ∅ taskDatasets \ outputNamesFold ∅ taskDatasets
  (inputs.image (fun n => (alistFind n all).getD ⟨"", ""⟩),
   (outputNamesFold ∅ taskDatasets).image (fun n => (alistFind n all).getD ⟨"", ""⟩))

/-- The quantum key of a row for a task with quantum dimension link
columns `qlinks`:
`tuple((col, row.dataId[col]) for col in qlinks)`.  The lookup is an
`Option` (the source assumes the column is present). -/
def qkeyOf (qlinks : List String) (row : Row) : List (String × Option Nat) :=
  qlinks.map (fun col => (col, alistFind col row.dataId))

/-- The quantum dimension link columns of one task:
`qlinks += self.dataUnits[dataUnitName].link` over
`config.quantum.units`, where `du` is the registry's data-unit link
table. -/
def qlinksOf (du : String → List String) (t : TaskDatasetTypes) : List String :=
  (t.taskDef.config.units.map du).flatten

/-- The per-quantum bucket structure: dataset type to (data-ref key to
dataset reference), both levels insertion-ordered Python dicts. -/
abbrev Buckets := List (DatasetType × List (DataId × DatasetRef))

/-- The per-task accumulator `taskQuantaInputs` /
`taskQuantaOutputs`: quantum key to buckets. -/
abbrev TaskAccum := List (List (String × Option Nat) × Buckets)

/-- The inner loop body of `_makeGraph` for one row and one list of
dataset types (`for dsType in taskDss.inputs: ...`):
`dataRefs = qinputs.setdefault(dsType, {})` followed by
`dataRefs[_dataRefKey(dataRef)] = dataRef`. -/
def addRefsForRow (row : Row) (dss : List DatasetType) (b : Buckets) : Buckets :=
  match dss with
  | [] => b
  | ds :: rest =>
      let bucket := (alistFind ds b).getD []
      let ref := row.datasetRefs ds
      addRefsForRow row rest (alistSet ds (alistSet (dataRefKey ref) ref bucket) b)

/-- The row loop of `_makeGraph` for one task: for every row compute
its quantum key, `setdefault` the key in both accumulators and insert
the row's references for every input and output dataset type. -/
def accumRows (qlinks : List String) (ins outs : List DatasetType) :
    List Row → TaskAccum × TaskAccum → TaskAccum × TaskAccum
  | [], acc => acc
  | row :: rest, acc =>
      let qkey := qkeyOf qlinks row
      let tin := alistSet qkey (addRefsForRow row ins ((alistFind qkey acc.1).getD [])) acc.1
      let tout := alistSet qkey (addRefsForRow row outs ((alistFind qkey acc.2).getD [])) acc.2
      accumRows qlinks ins outs rest (tin, tout)

/-- The `taskQuantaInputs` accumulator of `_makeGraph` for one task. -/
def tinOf (du : String → List String) (t : TaskDatasetTypes) (rows : List Row) : TaskAccum :=
  (accumRows (qlinksOf du t) t.inputs t.outputs rows ([], [])).1

/-- The `taskQuantaOutputs` accumulator of `_makeGraph` for one task. -/
def toutOf (du : String → List String) (t : TaskDatasetTypes) (rows : List Row) : TaskAccum :=
  (accumRows (qlinksOf du t) t.inputs t.outputs rows ([], [])).2

/-- Flatten a bucket structure into the list of its dataset references
(`chain.from_iterable(dataRefs.values() for dataRefs in d.values())`). -/
def flattenRefs (b : Buckets) : List DatasetRef :=
  (b.map (fun p => p.2.map Prod.snd)).flatten

/-- The flattened output references of the candidate quantum at one
quantum key (`outputs = list(chain.from_iterable(...))` in
`_makeGraph`). -/
def outRefsAt (tout : TaskAccum) (qk : List (String × Option Nat)) : List DatasetRef :=
  flattenRefs ((alistFind qk tout).getD [])

/-- `all(ref.id is not None for ref in outputs)`. -/
def allExist (refs : List DatasetRef) : Bool := refs.all (fun r => r.id.isSome)

/-- `any(ref.id is not None for ref in outputs)`. -/
def anyExist (refs : List DatasetRef) : Bool := refs.any (fun r => r.id.isSome)

/-- The quantum assembled for one quantum key: all outputs added
first, then all inputs, in bucket iteration order. -/
def quantumAt (tin tout : TaskAccum) (qk : List (String × Option Nat)) : QuantumModel :=
  { inputs := flattenRefs ((alistFind qk tin).getD []), outputs := outRefsAt tout qk }

/-- The quantum loop of `_makeGraph` (`for qkey in taskQuantaInputs`):
skip the quantum when `skipExisting` and all outputs exist, raise
`OutputExistsError` when some output exists, and otherwise emit the
quantum. -/
def buildQuanta (se : Bool) (tn : String) (tin tout : TaskAccum) :
    List (List (String × Option Nat)) → Except BuildError (List QuantumModel)
  | [] => .ok []
  | qk :: rest =>
      let outRefs := outRefsAt tout qk
      if se && allExist outRefs then buildQuanta se tn tin tout rest
      else if anyExist outRefs then .error (.outputExists tn outRefs)
      else do
        let tail ← buildQuanta se tn tin tout rest
        .ok (quantumAt tin tout qk :: tail)

/-- The whole per-task phase of `_makeGraph` for one task: accumulate
all rows, then run the quantum loop over the accumulated quantum keys
in insertion order. -/
def taskQuanta (du : String → List String) (se : Bool) (t : TaskDatasetTypes)
    (rows : List Row) : Except BuildError (List QuantumModel) :=
  buildQuanta se t.taskDef.taskName (tinOf du t rows) (toutOf du t rows)
    (alistKeys (tinOf du t rows))

/-- The task loop of `_makeGraph`: one `QuantumGraphNodes` appended
per task, in pipeline order; the first `OutputExistsError` aborts the
build. -/
def makeGraphTasks (du : String → List String) (se : Bool) :
    List TaskDatasetTypes → List Row → Except BuildError (List QuantumGraphNodes)
  | [], _ => .ok []
  | t :: rest, rows => do
      let quanta ← taskQuanta du se t rows
      let tail ← makeGraphTasks du se rest rows
      .ok ({ taskDef := t.taskDef, quanta := quanta } :: tail)

/-- `GraphBuilder.makeGraph` (with the external registry query
replaced by its result `rows`): load all task classes, collect every
task's input and output dataset types, and run the graph-building
phase.  The parsed user query and the full input/output dataset-type
sets only feed the external registry query, so they do not appear
here. -/
def makeGraphModel (env : TaskEnv) (du : String → List String) (se : Bool)
    (pipeline : List TaskDef) (rows : List Row) :
    Except BuildError (List QuantumGraphNodes) :=
  let taskList := pipeline.map (loadTaskClassPure env)
  let taskDatasets := taskList.map (fun td =>
    { taskDef := td,
      inputs := env.getInputDatasetTypes (td.taskClass.getD 0) td.config,
      outputs := env.getOutputDatasetTypes (td.taskClass.getD 0) td.config })
  makeGraphTasks du se taskDatasets rows

/-- The `Quantum` object of `quantum.py`: inputs and outputs are
dataset-class-indexed collections, `extras` is opaque task-private
data, `director` the optional primary dataset class. -/
structure PQuantum where
  inputs : List (DatasetType × List DatasetRef)
  outputs : List (DatasetType × List DatasetRef)
  extras : Option Nat
  director : Option DatasetType
deriving DecidableEq, Repr

/-- `Quantum.__init__` from `quantum.py`: store the four attributes,
then fail when a director is given that is a key of neither mapping
(`if director and director not in inputs and director not in
outputs`). -/
def quantumInit (inputs outputs : List (DatasetType × List DatasetRef))
    (extras : Option Nat := none) (director : Option DatasetType := none) :
    Except String PQuantum :=
  match director with
  | some d =>
      if d ∉ alistKeys inputs ∧ d ∉ alistKeys outputs then
        .error "Director dataset is not in inputs or outputs"
      else
        .ok { inputs := inputs, outputs := outputs, extras := extras, director := director }
  | none => .ok { inputs := inputs, outputs := outputs, extras := extras, director := none }


theorem alistKeys_nil : alistKeys ([] : List (κ × α)) = [] := rfl

theorem alistKeys_cons (p : κ × α) (rest : List (κ × α)) :
    alistKeys (p :: rest) = p.1 :: alistKeys rest := rfl

theorem alistFind_set_self [DecidableEq κ] (k : κ) (v : α) (m : List (κ × α)) :
    alistFind k (alistSet k v m) = some v := by
  induction m with
  | nil => simp [alistSet, alistFind]
  | cons p rest ih =>
      obtain ⟨k', v'⟩ := p
      by_cases h : k' = k
      · simp [alistSet, alistFind, h]
      · simp [alistSet, alistFind, h, ih]

theorem alistFind_set_ne [DecidableEq κ] {k k' : κ} (hne : k' ≠ k) (v : α)
    (m : List (κ × α)) : alistFind k' (alistSet k v m) = alistFind k' m := by
  have hkk : k ≠ k' := Ne.symm hne
  induction m with
  | nil => simp [alistSet, alistFind, hkk]
  | cons p rest ih =>
      obtain ⟨k'', v'⟩ := p
      by_cases h : k'' = k
      · subst h
        simp [alistSet, alistFind, hkk]
      · by_cases h2 : k'' = k'
        · subst h2
          simp [alistSet, alistFind, h]
        · simp [alistSet, alistFind, h, h2, ih]

theorem alistKeys_set_mem [DecidableEq κ] {k : κ} (v : α) (m : List (κ × α)) :
    k ∈ alistKeys m → alistKeys (alistSet k v m) = alistKeys m := by
  induction m with
  | nil => intro h; simp [alistKeys_nil] at h
  | cons p rest ih =>
      intro h
      obtain ⟨k', v'⟩ := p
      by_cases hk : k' = k
      · simp [alistSet, hk, alistKeys_cons]
      · have hmem : k ∈ alistKeys rest := by
          rw [alistKeys_cons] at h
          rcases List.mem_cons.1 h with h | h
          · exact absurd h.symm hk
          · exact h
        simp only [alistSet, if_neg hk, alistKeys_cons]
        rw [ih hmem]

theorem alistKeys_set_not_mem [DecidableEq κ] {k : κ} (v : α) (m : List (κ × α)) :
    k ∉ alistKeys m → alistKeys (alistSet k v m) = alistKeys m ++ [k] := by
  induction m with
  | nil => intro _; simp [alistSet, alistKeys]
  | cons p rest ih =>
      intro h
      obtain ⟨k', v'⟩ := p
      rw [alistKeys_cons] at h
      have hk : k' ≠ k := fun hh => h (List.mem_cons.2 (Or.inl hh.symm))
      have hrest : k ∉ alistKeys rest := fun hh => h (List.mem_cons.2 (Or.inr hh))
      simp only [alistSet, if_neg hk, alistKeys_cons]
      rw [ih hrest]
      rfl

theorem alistKeys_set_sub [DecidableEq κ] {k k' : κ} (v : α) {m : List (κ × α)}
    (h : k' ∈ alistKeys (alistSet k v m)) : k' ∈ alistKeys m ∨ k' = k := by
  by_cases hm : k ∈ alistKeys m
  · rw [alistKeys_set_mem v m hm] at h
    exact Or.inl h
  · rw [alistKeys_set_not_mem v m hm] at h
    rcases List.mem_append.1 h with h | h
    · exact Or.inl h
    · exact Or.inr (by simpa using h)

theorem alistKeys_set_super [DecidableEq κ] {k k' : κ} (v : α) {m : List (κ × α)}
    (h : k' ∈ alistKeys m ∨ k' = k) : k' ∈ alistKeys (alistSet k v m) := by
  by_cases hm : k ∈ alistKeys m
  · rw [alistKeys_set_mem v m hm]
    rcases h with h | h
    · exact h
    · exact h ▸ hm
  · rw [alistKeys_set_not_mem v m hm]
    rcases h with h | h
    · exact List.mem_append.2 (Or.inl h)
    · exact List.mem_append.2 (Or.inr (by simp [h]))

theorem alistKeys_set_nodup [DecidableEq κ] (k : κ) (v : α) {m : List (κ × α)}
    (h : (alistKeys m).Nodup) : (alistKeys (alistSet k v m)).Nodup := by
  by_cases hm : k ∈ alistKeys m
  · rwa [alistKeys_set_mem v m hm]
  · rw [alistKeys_set_not_mem v m hm]
    simpa [List.nodup_append] using ⟨h, hm⟩

theorem alistFind_eq_none_iff [DecidableEq κ] (k : κ) (m : List (κ × α)) :
    alistFind k m = none ↔ k ∉ alistKeys m := by
  induction m with
  | nil => simp [alistFind, alistKeys_nil]
  | cons p rest ih =>
      obtain ⟨k', v'⟩ := p
      by_cases h : k' = k
      · simp [alistFind, alistKeys_cons, h]
      · have h' : k ≠ k' := fun hh => h hh.symm
        simp only [alistFind, if_neg h, alistKeys_cons, List.mem_cons]
        rw [ih]
        constructor
        · intro hk hc
          rcases hc with hc | hc
          · exact h' hc
          · exact hk hc
        · intro hk hc
          exact hk (Or.inr hc)

theorem alistFind_isSome_iff [DecidableEq κ] (k : κ) (m : List (κ × α)) :
    (alistFind k m).isSome ↔ k ∈ alistKeys m := by
  rcases hf : alistFind k m with _ | v
  · simpa [hf] using (alistFind_eq_none_iff k m).1 hf
  · have : k ∈ alistKeys m := by
      by_contra hk
      rw [(alistFind_eq_none_iff k m).2 hk] at hf
      cases hf
    simp [this]

theorem alistFind_mem [DecidableEq κ] {k : κ} {v : α} {m : List (κ × α)}
    (h : alistFind k m = some v) : (k, v) ∈ m := by
  induction m with
  | nil => cases h
  | cons p rest ih =>
      obtain ⟨k', v'⟩ := p
      by_cases hk : k' = k
      · rw [alistFind, if_pos hk] at h
        cases h
        subst hk
        exact List.mem_cons.2 (Or.inl rfl)
      · rw [alistFind, if_neg hk] at h
        exact List.mem_cons_of_mem _ (ih h)

theorem alistMem_find [DecidableEq κ] {k : κ} {v : α} (m : List (κ × α)) :
    (alistKeys m).Nodup → (k, v) ∈ m → alistFind k m = some v := by
  induction m with
  | nil => intro _ h; cases h
  | cons p rest ih =>
      intro hd h
      obtain ⟨k', v'⟩ := p
      rw [alistKeys_cons] at hd
      have hd1 := List.nodup_cons.1 hd
      rcases List.mem_cons.1 h with h | h
      · cases h
        simp [alistFind]
      · have hk : k' ≠ k := by
          intro hh
          subst hh
          have hmk : k' ∈ alistKeys rest := List.mem_map_of_mem Prod.fst h
          exact hd1.1 hmk
        rw [alistFind, if_neg hk]
        exact ih hd1.2 h

theorem alistSet_mem_sub [DecidableEq κ] {k : κ} {v : α} {p : κ × α}
    (m : List (κ × α)) : p ∈ alistSet k v m → p ∈ m ∨ p = (k, v) := by
  induction m with
  | nil => intro h; simpa [alistSet] using h
  | cons q rest ih =>
      intro h
      obtain ⟨k', v'⟩ := q
      by_cases hk : k' = k
      · subst hk
        rw [alistSet, if_pos rfl] at h
        rcases List.mem_cons.1 h with h | h
        · exact Or.inr (by simp [h])
        · exact Or.inl (List.mem_cons_of_mem _ h)
      · rw [alistSet, if_neg hk] at h
        rcases List.mem_cons.1 h with h | h
        · exact Or.inl (by simp [h])
        · rcases ih h with h | h
          · exact Or.inl (List.mem_cons_of_mem _ h)
          · exact Or.inr h

/-- Single-accumulator version of the row loop: `accumRows` updates
its two components independently, and each component is an
`accumOne` run (proved below). -/
def accumOne (qlinks : List String) (dss : List DatasetType) :
    List Row → TaskAccum → TaskAccum
  | [], m => m
  | row :: rest, m =>
      accumOne qlinks dss rest
        (alistSet (qkeyOf qlinks row)
          (addRefsForRow row dss ((alistFind (qkeyOf qlinks row) m).getD [])) m)

/-- Processing a list of rows into one bucket structure, row by row. -/
def bucketFold (dss : List DatasetType) : List Row → Buckets → Buckets
  | [], b => b
  | r :: rest, b => bucketFold dss rest (addRefsForRow r dss b)

/-- The rows contributing to one quantum key. -/
def rowsFor (ql : List String) (qk : List (String × Option Nat)) (rows : List Row) :
    List Row :=
  rows.filter (fun r => decide (qkeyOf ql r = qk))

theorem rowsFor_nil (ql : List String) (qk : List (String × Option Nat)) :
    rowsFor ql qk [] = [] := rfl

theorem rowsFor_cons (ql : List String) (qk : List (String × Option Nat))
    (row : Row) (rest : List Row) :
    rowsFor ql qk (row :: rest) =
      if qkeyOf ql row = qk then row :: rowsFor ql qk rest else rowsFor ql qk rest := by
  by_cases h : qkeyOf ql row = qk
  · simp [rowsFor, List.filter_cons, h]
  · simp [rowsFor, List.filter_cons, h]

theorem accumRows_fst (ql : List String) (ins outs : List DatasetType) :
    ∀ (rows : List Row) (tin tout : TaskAccum),
      (accumRows ql ins outs rows (tin, tout)).1 = accumOne ql ins rows tin := by
  intro rows
  induction rows with
  | nil => intro tin tout; rfl
  | cons row rest ih => intro tin tout; exact ih _ _

theorem accumRows_snd (ql : List String) (ins outs : List DatasetType) :
    ∀ (rows : List Row) (tin tout : TaskAccum),
      (accumRows ql ins outs rows (tin, tout)).2 = accumOne ql outs rows tout := by
  intro rows
  induction rows with
  | nil => intro tin tout; rfl
  | cons row rest ih => intro tin tout; exact ih _ _

theorem accumOne_find_no_row (ql : List String) (dss : List DatasetType)
    (qk : List (String × Option Nat)) :
    ∀ (rows : List Row) (m : TaskAccum), rowsFor ql qk rows = [] →
      alistFind qk (accumOne ql dss rows m) = alistFind qk m := by
  intro rows
  induction rows with
  | nil => intro m _; rfl
  | cons row rest ih =>
      intro m h
      rw [rowsFor_cons] at h
      by_cases hq : qkeyOf ql row = qk
      · rw [if_pos hq] at h
        cases h
      · rw [if_neg hq] at h
        rw [accumOne, ih _ h, alistFind_set_ne (fun hh => hq hh.symm)]

theorem accumOne_find_rows (ql : List String) (dss : List DatasetType)
    (qk : List (String × Option Nat)) :
    ∀ (rows : List Row) (m : TaskAccum), rowsFor ql qk rows ≠ [] →
      alistFind qk (accumOne ql dss rows m) =
        some (bucketFold dss (rowsFor ql qk rows) ((alistFind qk m).getD [])) := by
  intro rows
  induction rows with
  | nil => intro m h; exact absurd rfl h
  | cons row rest ih =>
      intro m h
      rw [rowsFor_cons] at h ⊢
      by_cases hq : qkeyOf ql row = qk
      · rw [if_pos hq] at h ⊢
        have hset : alistFind qk
            (alistSet (qkeyOf ql row)
              (addRefsForRow row dss ((alistFind (qkeyOf ql row) m).getD [])) m) =
            some (addRefsForRow row dss ((alistFind qk m).getD [])) := by
          rw [hq, alistFind_set_self]
        by_cases hrest : rowsFor ql qk rest = []
        · rw [hrest]
          rw [accumOne, accumOne_find_no_row ql dss qk rest _ hrest, hset]
          rfl
        · rw [accumOne, ih _ hrest, hset]
          rfl
      · rw [if_neg hq] at h ⊢
        rw [accumOne, ih _ h, alistFind_set_ne (fun hh => hq hh.symm)]

theorem accumOne_keys_mem (ql : List String) (dss : List DatasetType)
    (qk : List (String × Option Nat)) :
    ∀ (rows : List Row) (m : TaskAccum),
      (qk ∈ alistKeys (accumOne ql dss rows m) ↔
        qk ∈ alistKeys m ∨ ∃ r ∈ rows, qkeyOf ql r = qk) := by
  intro rows
  induction rows with
  | nil => intro m; simp [accumOne]
  | cons row rest ih =>
      intro m
      rw [accumOne, ih]
      constructor
      · intro h
        rcases h with h | h
        · rcases alistKeys_set_sub _ h with h | h
          · exact Or.inl h
          · exact Or.inr ⟨row, by simp, h.symm⟩
        · obtain ⟨r, hr, hrq⟩ := h
          exact Or.inr ⟨r, by simp [hr], hrq⟩
      · intro h
        rcases h with h | h
        · exact Or.inl (alistKeys_set_super _ (Or.inl h))
        · obtain ⟨r, hr, hrq⟩ := h
          rcases List.mem_cons.1 hr with hr | hr
          · subst hr
            exact Or.inl (alistKeys_set_super _ (Or.inr hrq.symm))
          · exact Or.inr ⟨r, hr, hrq⟩

theorem accumOne_keys_nodup (ql : List String) (dss : List DatasetType) :
    ∀ (rows : List Row) (m : TaskAccum),
      (alistKeys m).Nodup → (alistKeys (accumOne ql dss rows m)).Nodup := by
  intro rows
  induction rows with
  | nil => intro m h; exact h
  | cons row rest ih =>
      intro m h
      exact ih _ (alistKeys_set_nodup _ _ h)

/-- The inner dict of a bucket structure under one dataset type
(empty when the dataset type is absent). -/
def innerAt (ds : DatasetType) (b : Buckets) : List (DataId × DatasetRef) :=
  (alistFind ds b).getD []

/-- Append to `ks` each element of the second list not yet present,
in order: the key list produced by repeated `setdefault`. -/
def keysUnion [DecidableEq κ] (ks : List κ) : List κ → List κ
  | [] => ks
  | k :: rest => keysUnion (if k ∈ ks then ks else ks ++ [k]) rest

theorem keysUnion_mem [DecidableEq κ] (k : κ) :
    ∀ (l ks : List κ), (k ∈ keysUnion ks l ↔ k ∈ ks ∨ k ∈ l) := by
  intro l
  induction l with
  | nil => intro ks; simp [keysUnion]
  | cons d rest ih =>
      intro ks
      rw [keysUnion, ih]
      by_cases hd : d ∈ ks
      · rw [if_pos hd]
        constructor
        · intro h
          rcases h with h | h
          · exact Or.inl h
          · exact Or.inr (List.mem_cons.2 (Or.inr h))
        · intro h
          rcases h with h | h
          · exact Or.inl h
          · rcases List.mem_cons.1 h with h | h
            · exact Or.inl (h ▸ hd)
            · exact Or.inr h
      · rw [if_neg hd]
        constructor
        · intro h
          rcases h with h | h
          · rcases List.mem_append.1 h with h | h
            · exact Or.inl h
            · exact Or.inr (List.mem_cons.2 (Or.inl (by simpa using h)))
          · exact Or.inr (List.mem_cons.2 (Or.inr h))
        · intro h
          rcases h with h | h
          · exact Or.inl (List.mem_append.2 (Or.inl h))
          · rcases List.mem_cons.1 h with h | h
            · exact Or.inl (List.mem_append.2 (Or.inr (by simp [h])))
            · exact Or.inr h

theorem keysUnion_subset_eq [DecidableEq κ] :
    ∀ (l ks : List κ), (∀ k ∈ l, k ∈ ks) → keysUnion ks l = ks := by
  intro l
  induction l with
  | nil => intro ks _; rfl
  | cons d rest ih =>
      intro ks h
      rw [keysUnion, if_pos (h d (List.mem_cons.2 (Or.inl rfl)))]
      exact ih ks (fun k hk => h k (List.mem_cons.2 (Or.inr hk)))

theorem keysUnion_idem [DecidableEq κ] (ks l : List κ) :
    keysUnion (keysUnion ks l) l = keysUnion ks l :=
  keysUnion_subset_eq l _ (fun k hk => (keysUnion_mem k l ks).2 (Or.inr hk))

theorem keysUnion_nodup [DecidableEq κ] :
    ∀ (l ks : List κ), ks.Nodup → (keysUnion ks l).Nodup := by
  intro l
  induction l with
  | nil => intro ks h; exact h
  | cons d rest ih =>
      intro ks h
      rw [keysUnion]
      by_cases hd : d ∈ ks
      · rw [if_pos hd]; exact ih ks h
      · rw [if_neg hd]
        exact ih _ (by simpa [List.nodup_append] using ⟨h, hd⟩)

theorem alistKeys_set_eq [DecidableEq κ] (k : κ) (v : α) (m : List (κ × α)) :
    alistKeys (alistSet k v m) =
      if k ∈ alistKeys m then alistKeys m else alistKeys m ++ [k] := by
  by_cases h : k ∈ alistKeys m
  · rw [if_pos h, alistKeys_set_mem v m h]
  · rw [if_neg h, alistKeys_set_not_mem v m h]

theorem addRefsForRow_keys (row : Row) :
    ∀ (dss : List DatasetType) (b : Buckets),
      alistKeys (addRefsForRow row dss b) = keysUnion (alistKeys b) dss := by
  intro dss
  induction dss with
  | nil => intro b; rfl
  | cons d rest ih =>
      intro b
      rw [addRefsForRow, ih, keysUnion, alistKeys_set_eq]

theorem bucketFold_keys (dss : List DatasetType) :
    ∀ (rs : List Row) (b : Buckets), rs ≠ [] →
      alistKeys (bucketFold dss rs b) = keysUnion (alistKeys b) dss := by
  intro rs
  induction rs with
  | nil => intro b h; exact absurd rfl h
  | cons r rest ih =>
      intro b _
      by_cases hrest : rest = []
      · subst hrest
        rw [bucketFold, bucketFold, addRefsForRow_keys]
      · rw [bucketFold, ih _ hrest, addRefsForRow_keys, keysUnion_idem]

theorem addRefsForRow_find_not_mem (row : Row) {ds : DatasetType} :
    ∀ (dss : List DatasetType) (b : Buckets), ds ∉ dss →
      alistFind ds (addRefsForRow row dss b) = alistFind ds b := by
  intro dss
  induction dss with
  | nil => intro b _; rfl
  | cons d rest ih =>
      intro b h
      have hd : ds ≠ d := fun hh => h (List.mem_cons.2 (Or.inl hh))
      have hrest : ds ∉ rest := fun hh => h (List.mem_cons.2 (Or.inr hh))
      rw [addRefsForRow, ih _ hrest, alistFind_set_ne hd]

theorem addRefsForRow_find_last (row : Row) {ds : DatasetType} :
    ∀ (dss : List DatasetType) (b : Buckets), ds ∈ dss →
      alistFind (dataRefKey (row.datasetRefs ds))
        (innerAt ds (addRefsForRow row dss b)) = some (row.datasetRefs ds) := by
  intro dss
  induction dss with
  | nil => intro b h; cases h
  | cons d rest ih =>
      intro b h
      by_cases hrest : ds ∈ rest
      · rw [addRefsForRow]
        exact ih _ hrest
      · have hd : ds = d := by
          rcases List.mem_cons.1 h with h | h
          · exact h
          · exact absurd h hrest
        subst hd
        rw [addRefsForRow, innerAt, addRefsForRow_find_not_mem row rest _ hrest]
        rw [alistFind_set_self, Option.getD_some, alistFind_set_self]

theorem bucketFold_find_last (dss : List DatasetType) {ds : DatasetType}
    (hds : ds ∈ dss) (rs : List Row) (r : Row) (b : Buckets) :
    alistFind (dataRefKey (r.datasetRefs ds))
      (innerAt ds (bucketFold dss (rs ++ [r]) b)) = some (r.datasetRefs ds) := by
  induction rs generalizing b with
  | nil => exact addRefsForRow_find_last r dss b hds
  | cons r' rest ih => exact ih _

theorem addRefsForRow_inner_sub (row : Row) {ds : DatasetType} {p : DataId × DatasetRef} :
    ∀ (dss : List DatasetType) (b : Buckets),
      p ∈ innerAt ds (addRefsForRow row dss b) →
      p ∈ innerAt ds b ∨
        (ds ∈ dss ∧ p = (dataRefKey (row.datasetRefs ds), row.datasetRefs ds)) := by
  intro dss
  induction dss with
  | nil => intro b h; exact Or.inl h
  | cons d rest ih =>
      intro b h
      rw [addRefsForRow] at h
      rcases ih _ h with h | ⟨hds, hp⟩
      · by_cases hd : d = ds
        · subst hd
          rw [innerAt, alistFind_set_self, Option.getD_some] at h
          rcases alistSet_mem_sub _ h with h | h
          · exact Or.inl h
          · exact Or.inr ⟨List.mem_cons.2 (Or.inl rfl), h⟩
        · rw [innerAt, alistFind_set_ne (fun hh => hd hh.symm)] at h
          exact Or.inl h
      · exact Or.inr ⟨List.mem_cons.2 (Or.inr hds), hp⟩

theorem addRefsForRow_inner_key_mono (row : Row) {ds : DatasetType} {k : DataId} :
    ∀ (dss : List DatasetType) (b : Buckets),
      k ∈ alistKeys (innerAt ds b) →
      k ∈ alistKeys (innerAt ds (addRefsForRow row dss b)) := by
  intro dss
  induction dss with
  | nil => intro b h; exact h
  | cons d rest ih =>
      intro b h
      rw [addRefsForRow]
      apply ih
      by_cases hd : d = ds
      · subst hd
        rw [innerAt, alistFind_set_self, Option.getD_some]
        exact alistKeys_set_super _ (Or.inl h)
      · rw [innerAt, alistFind_set_ne (fun hh => hd hh.symm)]
        exact h

theorem addRefsForRow_inner_key_self (row : Row) {ds : DatasetType} :
    ∀ (dss : List DatasetType) (b : Buckets), ds ∈ dss →
      dataRefKey (row.datasetRefs ds) ∈
        alistKeys (innerAt ds (addRefsForRow row dss b)) := by
  intro dss
  induction dss with
  | nil => intro b h; cases h
  | cons d rest ih =>
      intro b h
      by_cases hrest : ds ∈ rest
      · rw [addRefsForRow]
        exact ih _ hrest
      · have hd : ds = d := by
          rcases List.mem_cons.1 h with h | h
          · exact h
          · exact absurd h hrest
        subst hd
        rw [addRefsForRow, innerAt, addRefsForRow_find_not_mem row rest _ hrest]
        rw [alistFind_set_self, Option.getD_some]
        exact alistKeys_set_super _ (Or.inr rfl)

theorem addRefsForRow_inner_nodup (row : Row) :
    ∀ (dss : List DatasetType) (b : Buckets),
      (∀ ds, (alistKeys (innerAt ds b)).Nodup) →
      ∀ ds, (alistKeys (innerAt ds (addRefsForRow row dss b))).Nodup := by
  intro dss
  induction dss with
  | nil => intro b h; exact h
  | cons d rest ih =>
      intro b h
      rw [addRefsForRow]
      apply ih
      intro ds
      by_cases hd : d = ds
      · subst hd
        rw [innerAt, alistFind_set_self, Option.getD_some]
        exact alistKeys_set_nodup _ _ (h _)
      · rw [innerAt, alistFind_set_ne (fun hh => hd hh.symm)]
        exact h ds

theorem bucketFold_inner_sub (dss : List DatasetType) {ds : DatasetType}
    {p : DataId × DatasetRef} :
    ∀ (rs : List Row) (b : Buckets),
      p ∈ innerAt ds (bucketFold dss rs b) →
      p ∈ innerAt ds b ∨
        (ds ∈ dss ∧ ∃ r ∈ rs, p = (dataRefKey (r.datasetRefs ds), r.datasetRefs ds)) := by
  intro rs
  induction rs with
  | nil => intro b h; exact Or.inl h
  | cons r rest ih =>
      intro b h
      rw [bucketFold] at h
      rcases ih _ h with h | ⟨hds, r', hr', hp⟩
      · rcases addRefsForRow_inner_sub r dss b h with h | ⟨hds, hp⟩
        · exact Or.inl h
        · exact Or.inr ⟨hds, r, List.mem_cons.2 (Or.inl rfl), hp⟩
      · exact Or.inr ⟨hds, r', List.mem_cons.2 (Or.inr hr'), hp⟩

theorem bucketFold_inner_key_mono (dss : List DatasetType) {ds : DatasetType} {k : DataId} :
    ∀ (rs : List Row) (b : Buckets),
      k ∈ alistKeys (innerAt ds b) →
      k ∈ alistKeys (innerAt ds (bucketFold dss rs b)) := by
  intro rs
  induction rs with
  | nil => intro b h; exact h
  | cons r rest ih =>
      intro b h
      rw [bucketFold]
      exact ih _ (addRefsForRow_inner_key_mono r dss b h)

theorem bucketFold_inner_key_mem (dss : List DatasetType) {ds : DatasetType}
    (hds : ds ∈ dss) {r : Row} :
    ∀ (rs : List Row) (b : Buckets), r ∈ rs →
      dataRefKey (r.datasetRefs ds) ∈
        alistKeys (innerAt ds (bucketFold dss rs b)) := by
  intro rs
  induction rs with
  | nil => intro b h; cases h
  | cons r' rest ih =>
      intro b h
      rcases List.mem_cons.1 h with h | h
      · subst h
        rw [bucketFold]
        exact bucketFold_inner_key_mono dss rest _
          (addRefsForRow_inner_key_self r dss b hds)
      · rw [bucketFold]
        exact ih _ h

theorem bucketFold_inner_nodup (dss : List DatasetType) :
    ∀ (rs : List Row) (b : Buckets),
      (∀ ds, (alistKeys (innerAt ds b)).Nodup) →
      ∀ ds, (alistKeys (innerAt ds (bucketFold dss rs b))).Nodup := by
  intro rs
  induction rs with
  | nil => intro b h; exact h
  | cons r rest ih =>
      intro b h
      rw [bucketFold]
      exact ih _ (addRefsForRow_inner_nodup r dss b h)

theorem innerAt_nil (ds : DatasetType) : innerAt ds [] = [] := rfl

/-- Reference consistency of a row list over the given dataset types:
no two rows disagree on the reference for the same dataset type and
deduplication key.  The registry contract makes the reference a
function of its coordinates, which this captures. -/
abbrev Consistent (dss : List DatasetType) (rows : List Row) : Prop :=
  ∀ r ∈ rows, ∀ r' ∈ rows, ∀ ds ∈ dss,
    dataRefKey (r.datasetRefs ds) = dataRefKey (r'.datasetRefs ds) →
    r.datasetRefs ds = r'.datasetRefs ds

theorem inner_mem_iff (dss : List DatasetType) {ds : DatasetType} (hds : ds ∈ dss)
    (rs : List Row)
    (hcons : ∀ r ∈ rs, ∀ r' ∈ rs,
      dataRefKey (r.datasetRefs ds) = dataRefKey (r'.datasetRefs ds) →
      r.datasetRefs ds = r'.datasetRefs ds)
    (p : DataId × DatasetRef) :
    p ∈ innerAt ds (bucketFold dss rs []) ↔
      ∃ r ∈ rs, p = (dataRefKey (r.datasetRefs ds), r.datasetRefs ds) := by
  constructor
  · intro h
    rcases bucketFold_inner_sub dss rs [] h with h | ⟨_, hr⟩
    · simp [innerAt, alistFind] at h
    · exact hr
  · rintro ⟨r, hr, rfl⟩
    have hkey := bucketFold_inner_key_mem dss hds rs [] hr
    have hsome := (alistFind_isSome_iff _ _).2 hkey
    rcases hv : alistFind (dataRefKey (r.datasetRefs ds))
        (innerAt ds (bucketFold dss rs [])) with _ | v
    · rw [hv] at hsome
      cases hsome
    · have hmem := alistFind_mem hv
      rcases bucketFold_inner_sub dss rs [] hmem with h0 | ⟨_, r', hr', hp'⟩
      · simp [innerAt, alistFind] at h0
      · have h1 : dataRefKey (r.datasetRefs ds) = dataRefKey (r'.datasetRefs ds) := by
          simpa using congrArg Prod.fst hp'
        have h2 : v = r'.datasetRefs ds := by
          simpa using congrArg Prod.snd hp'
        have h3 : v = r.datasetRefs ds := by
          rw [h2, ← hcons r hr r' hr' h1]
        exact h3 ▸ hmem

theorem inner_nodup (dss : List DatasetType) (rs : List Row) (ds : DatasetType) :
    (innerAt ds (bucketFold dss rs [])).Nodup := by
  have hkeys : (alistKeys (innerAt ds (bucketFold dss rs []))).Nodup := by
    apply bucketFold_inner_nodup
    intro ds'
    simp [innerAt_nil, alistKeys_nil]
  exact hkeys.of_map Prod.fst

theorem inner_perm (dss : List DatasetType) {ds : DatasetType} (hds : ds ∈ dss)
    {rs1 rs2 : List Row} (hp : rs1.Perm rs2)
    (hcons : ∀ r ∈ rs1, ∀ r' ∈ rs1,
      dataRefKey (r.datasetRefs ds) = dataRefKey (r'.datasetRefs ds) →
      r.datasetRefs ds = r'.datasetRefs ds) :
    (innerAt ds (bucketFold dss rs1 [])).Perm (innerAt ds (bucketFold dss rs2 [])) := by
  have hcons2 : ∀ r ∈ rs2, ∀ r' ∈ rs2,
      dataRefKey (r.datasetRefs ds) = dataRefKey (r'.datasetRefs ds) →
      r.datasetRefs ds = r'.datasetRefs ds :=
    fun r hr r' hr' => hcons r (hp.mem_iff.2 hr) r' (hp.mem_iff.2 hr')
  apply (List.perm_ext_iff_of_nodup (inner_nodup dss rs1 ds) (inner_nodup dss rs2 ds)).2
  intro p
  rw [inner_mem_iff dss hds rs1 hcons p, inner_mem_iff dss hds rs2 hcons2 p]
  constructor
  · rintro ⟨r, hr, hp'⟩
    exact ⟨r, hp.mem_iff.1 hr, hp'⟩
  · rintro ⟨r, hr, hp'⟩
    exact ⟨r, hp.mem_iff.2 hr, hp'⟩

theorem alistForallTwo [DecidableEq κ] (R : α → α → Prop) :
    ∀ (m1 m2 : List (κ × α)), alistKeys m1 = alistKeys m2 → (alistKeys m1).Nodup →
      (∀ k v1 v2, alistFind k m1 = some v1 → alistFind k m2 = some v2 → R v1 v2) →
      List.Forall₂ (fun p q => p.1 = q.1 ∧ R p.2 q.2) m1 m2 := by
  intro m1
  induction m1 with
  | nil =>
      intro m2 hkeys _ _
      have : m2 = [] := by
        rcases m2 with _ | ⟨q, m2'⟩
        · rfl
        · cases hkeys
      subst this
      exact List.Forall₂.nil
  | cons p m1' ih =>
      intro m2 hkeys hnd h
      rcases m2 with _ | ⟨q, m2'⟩
      · cases hkeys
      · rw [alistKeys_cons, alistKeys_cons] at hkeys
        have hk : p.1 = q.1 := by
          injection hkeys
        have hkeys' : alistKeys m1' = alistKeys m2' := by
          injection hkeys
        rw [alistKeys_cons] at hnd
        have hnd1 := List.nodup_cons.1 hnd
        have hfind1 : alistFind p.1 (p :: m1') = some p.2 := by
          rcases p with ⟨k0, v0⟩
          simp [alistFind]
        have hfind2 : alistFind p.1 (q :: m2') = some q.2 := by
          rcases q with ⟨k0, v0⟩
          have hk0 : k0 = p.1 := by
            simp only at hk
            exact hk.symm
          rw [alistFind, if_pos hk0]
        refine List.Forall₂.cons ⟨hk, h p.1 p.2 q.2 hfind1 hfind2⟩ ?_
        apply ih m2' hkeys' hnd1.2
        intro k v1 v2 hv1 hv2
        by_cases hkp : k = p.1
        · exfalso
          rw [hkp] at hv1
          have hvm : (p.1, v1) ∈ m1' := alistFind_mem hv1
          have hmk := List.mem_map_of_mem Prod.fst hvm
          exact hnd1.1 hmk
        · apply h k v1 v2
          · rcases p with ⟨k0, v0⟩
            rw [alistFind, if_neg (fun hh => hkp hh.symm)]
            exact hv1
          · rcases q with ⟨k0, v0⟩
            have hkq : k ≠ k0 := by
              simp only at hk
              rw [← hk]
              exact hkp
            rw [alistFind, if_neg (fun hh => hkq hh.symm)]
            exact hv2

theorem flattenRefs_perm {b1 b2 : Buckets}
    (h : List.Forall₂ (fun p q => p.1 = q.1 ∧ p.2.Perm q.2) b1 b2) :
    (flattenRefs b1).Perm (flattenRefs b2) := by
  unfold flattenRefs
  apply List.Perm.flatten_congr
  induction h with
  | nil => exact List.Forall₂.nil
  | cons hpq _ ih => exact List.Forall₂.cons (hpq.2.map Prod.snd) ih

theorem bucketFold_flatten_perm (dss : List DatasetType) {rs1 rs2 : List Row}
    (hp : rs1.Perm rs2) (hne : rs1 ≠ [])
    (hcons : ∀ r ∈ rs1, ∀ r' ∈ rs1, ∀ ds ∈ dss,
      dataRefKey (r.datasetRefs ds) = dataRefKey (r'.datasetRefs ds) →
      r.datasetRefs ds = r'.datasetRefs ds) :
    (flattenRefs (bucketFold dss rs1 [])).Perm (flattenRefs (bucketFold dss rs2 [])) := by
  have hne2 : rs2 ≠ [] := by
    intro hh
    subst hh
    exact hne hp.eq_nil
  have hkeys1 : alistKeys (bucketFold dss rs1 []) = keysUnion (alistKeys ([] : Buckets)) dss :=
    bucketFold_keys dss rs1 [] hne
  have hkeys2 : alistKeys (bucketFold dss rs2 []) = keysUnion (alistKeys ([] : Buckets)) dss :=
    bucketFold_keys dss rs2 [] hne2
  apply flattenRefs_perm
  apply alistForallTwo
  · rw [hkeys1, hkeys2]
  · rw [hkeys1]
    exact keysUnion_nodup dss _ (by simp [alistKeys_nil])
  · intro ds v1 v2 hv1 hv2
    have hmem : ds ∈ alistKeys (bucketFold dss rs1 []) := by
      rw [← alistFind_isSome_iff, hv1]
      rfl
    have hds : ds ∈ dss := by
      rw [hkeys1] at hmem
      rcases (keysUnion_mem ds dss _).1 hmem with h | h
      · simp [alistKeys_nil] at h
      · exact h
    have h1 : innerAt ds (bucketFold dss rs1 []) = v1 := by
      rw [innerAt, hv1]
      exact Option.getD_some
    have h2 : innerAt ds (bucketFold dss rs2 []) = v2 := by
      rw [innerAt, hv2]
      exact Option.getD_some
    rw [← h1, ← h2]
    exact inner_perm dss hds hp (fun r hr r' hr' => hcons r hr r' hr' ds hds)

theorem allExist_perm {l1 l2 : List DatasetRef} (h : l1.Perm l2) :
    allExist l1 = allExist l2 := by
  apply Bool.eq_iff_iff.2
  simp only [allExist, List.all_eq_true]
  exact ⟨fun H r hr => H r (h.mem_iff.2 hr), fun H r hr => H r (h.mem_iff.1 hr)⟩

theorem anyExist_perm {l1 l2 : List DatasetRef} (h : l1.Perm l2) :
    anyExist l1 = anyExist l2 := by
  apply Bool.eq_iff_iff.2
  simp only [anyExist, List.any_eq_true]
  constructor
  · rintro ⟨r, hr, hid⟩
    exact ⟨r, h.mem_iff.1 hr, hid⟩
  · rintro ⟨r, hr, hid⟩
    exact ⟨r, h.mem_iff.2 hr, hid⟩

theorem tinOf_eq (du : String → List String) (t : TaskDatasetTypes) (rows : List Row) :
    tinOf du t rows = accumOne (qlinksOf du t) t.inputs rows [] :=
  accumRows_fst (qlinksOf du t) t.inputs t.outputs rows [] []

theorem toutOf_eq (du : String → List String) (t : TaskDatasetTypes) (rows : List Row) :
    toutOf du t rows = accumOne (qlinksOf du t) t.outputs rows [] :=
  accumRows_snd (qlinksOf du t) t.inputs t.outputs rows [] []

theorem tinOf_keys_mem (du : String → List String) (t : TaskDatasetTypes)
    (rows : List Row) (qk : List (String × Option Nat)) :
    qk ∈ alistKeys (tinOf du t rows) ↔ ∃ r ∈ rows, qkeyOf (qlinksOf du t) r = qk := by
  rw [tinOf_eq, accumOne_keys_mem]
  simp [alistKeys_nil]

theorem toutOf_keys_mem (du : String → List String) (t : TaskDatasetTypes)
    (rows : List Row) (qk : List (String × Option Nat)) :
    qk ∈ alistKeys (toutOf du t rows) ↔ ∃ r ∈ rows, qkeyOf (qlinksOf du t) r = qk := by
  rw [toutOf_eq, accumOne_keys_mem]
  simp [alistKeys_nil]

theorem tinOf_keys_nodup (du : String → List String) (t : TaskDatasetTypes)
    (rows : List Row) : (alistKeys (tinOf du t rows)).Nodup := by
  rw [tinOf_eq]
  exact accumOne_keys_nodup _ _ rows [] (by simp [alistKeys_nil])

theorem rowsFor_ne_nil_iff (ql : List String) (qk : List (String × Option Nat))
    (rows : List Row) :
    rowsFor ql qk rows ≠ [] ↔ ∃ r ∈ rows, qkeyOf ql r = qk := by
  constructor
  · intro h
    rcases hr : rowsFor ql qk rows with _ | ⟨r, rest⟩
    · exact absurd hr h
    · have hm : r ∈ rowsFor ql qk rows := by
        rw [hr]
        exact List.mem_cons.2 (Or.inl rfl)
      have := List.mem_filter.1 hm
      exact ⟨r, this.1, of_decide_eq_true this.2⟩
  · rintro ⟨r, hr, hq⟩
    have hm : r ∈ rowsFor ql qk rows :=
      List.mem_filter.2 ⟨hr, decide_eq_true hq⟩
    exact List.ne_nil_of_mem hm

theorem tinOf_find (du : String → List String) (t : TaskDatasetTypes) (rows : List Row)
    (qk : List (String × Option Nat)) (h : rowsFor (qlinksOf du t) qk rows ≠ []) :
    alistFind qk (tinOf du t rows) =
      some (bucketFold t.inputs (rowsFor (qlinksOf du t) qk rows) []) := by
  rw [tinOf_eq, accumOne_find_rows _ _ _ rows [] h]
  rfl

theorem toutOf_find (du : String → List String) (t : TaskDatasetTypes) (rows : List Row)
    (qk : List (String × Option Nat)) (h : rowsFor (qlinksOf du t) qk rows ≠ []) :
    alistFind qk (toutOf du t rows) =
      some (bucketFold t.outputs (rowsFor (qlinksOf du t) qk rows) []) := by
  rw [toutOf_eq, accumOne_find_rows _ _ _ rows [] h]
  rfl

theorem outRefsAt_eq (du : String → List String) (t : TaskDatasetTypes) (rows : List Row)
    (qk : List (String × Option Nat)) (h : rowsFor (qlinksOf du t) qk rows ≠ []) :
    outRefsAt (toutOf du t rows) qk =
      flattenRefs (bucketFold t.outputs (rowsFor (qlinksOf du t) qk rows) []) := by
  rw [outRefsAt, toutOf_find du t rows qk h]
  rfl

/-- The quantum-loop condition under which `_makeGraph` raises
`OutputExistsError` for a quantum key. -/
def errCond (se : Bool) (refs : List DatasetRef) : Bool :=
  anyExist refs && !(se && allExist refs)

theorem buildQuanta_ok_no_err (se : Bool) (tn : String) (tin tout : TaskAccum) :
    ∀ (keys : List (List (String × Option Nat))) (l : List QuantumModel),
      buildQuanta se tn tin tout keys = .ok l →
      ∀ qk ∈ keys, errCond se (outRefsAt tout qk) = false := by
  intro keys
  induction keys with
  | nil => intro l _ qk hqk; cases hqk
  | cons k rest ih =>
      intro l hok qk hqk
      rw [buildQuanta] at hok
      by_cases hskip : (se && allExist (outRefsAt tout k)) = true
      · rw [if_pos hskip] at hok
        rcases List.mem_cons.1 hqk with hqk | hqk
        · subst hqk
          simp [errCond, hskip]
        · exact ih l hok qk hqk
      · rw [if_neg hskip] at hok
        by_cases hany : anyExist (outRefsAt tout k) = true
        · rw [if_pos hany] at hok
          cases hok
        · rw [if_neg hany] at hok
          rcases List.mem_cons.1 hqk with hqk | hqk
          · subst hqk
            simp [errCond, Bool.eq_false_iff.2 hany]
          · rcases hrec : buildQuanta se tn tin tout rest with e | tail
            · rw [hrec] at hok
              cases hok
            · exact ih tail hrec qk hqk

theorem buildQuanta_ok_form (se : Bool) (tn : String) (tin tout : TaskAccum) :
    ∀ (keys : List (List (String × Option Nat))),
      (∀ qk ∈ keys, errCond se (outRefsAt tout qk) = false) →
      buildQuanta se tn tin tout keys =
        .ok ((keys.filter (fun qk => !(se && allExist (outRefsAt tout qk)))).map
          (quantumAt tin tout)) := by
  intro keys
  induction keys with
  | nil => intro _; rfl
  | cons k rest ih =>
      intro h
      have hrest := fun qk hqk => h qk (List.mem_cons.2 (Or.inr hqk))
      have hk := h k (List.mem_cons.2 (Or.inl rfl))
      rw [buildQuanta, List.filter_cons]
      by_cases hskip : (se && allExist (outRefsAt tout k)) = true
      · rw [if_pos hskip, hskip]
        simp only [Bool.not_true, Bool.false_eq_true, if_false]
        exact ih hrest
      · rw [if_neg hskip]
        have hany : anyExist (outRefsAt tout k) = false := by
          rcases hany : anyExist (outRefsAt tout k) with _ | _
          · rfl
          · exfalso
            rw [errCond, hany, Bool.eq_false_iff.2 hskip] at hk
            simp at hk
        rw [if_neg (by rw [hany]; exact Bool.false_ne_true)]
        rw [ih hrest]
        have hkeep : (!(se && allExist (outRefsAt tout k))) = true := by
          rw [Bool.eq_false_iff.2 hskip]
          rfl
        rw [hkeep, if_pos rfl]
        rfl

theorem buildQuanta_error_of_mem (se : Bool) (tn : String) (tin tout : TaskAccum) :
    ∀ (keys : List (List (String × Option Nat))) (qk : List (String × Option Nat)),
      qk ∈ keys → errCond se (outRefsAt tout qk) = true →
      ∃ refs, buildQuanta se tn tin tout keys = .error (.outputExists tn refs) ∧
        anyExist refs = true := by
  intro keys
  induction keys with
  | nil => intro qk hqk _; cases hqk
  | cons k rest ih =>
      intro qk hqk herr
      have herr' := herr
      rw [errCond, Bool.and_eq_true] at herr'
      rw [buildQuanta]
      by_cases hskip : (se && allExist (outRefsAt tout k)) = true
      · rw [if_pos hskip]
        rcases List.mem_cons.1 hqk with hqk | hqk
        · exfalso
          subst hqk
          rw [hskip] at herr'
          simp at herr'
        · exact ih qk hqk herr
      · rw [if_neg hskip]
        by_cases hany : anyExist (outRefsAt tout k) = true
        · rw [if_pos hany]
          exact ⟨outRefsAt tout k, rfl, hany⟩
        · rw [if_neg hany]
          have hqk' : qk ∈ rest := by
            rcases List.mem_cons.1 hqk with hqk | hqk
            · exfalso
              subst hqk
              exact hany herr'.1
            · exact hqk
          obtain ⟨refs, hrec, hrefs⟩ := ih qk hqk' herr
          rw [hrec]
          exact ⟨refs, rfl, hrefs⟩

theorem buildQuanta_skip_filter (tn : String) (tin tout : TaskAccum)
    (qk : List (String × Option Nat)) (hall : allExist (outRefsAt tout qk) = true) :
    ∀ (keys : List (List (String × Option Nat))),
      buildQuanta true tn tin tout keys =
        buildQuanta true tn tin tout (keys.filter (fun k => !(decide (k = qk)))) := by
  intro keys
  induction keys with
  | nil => rfl
  | cons k rest ih =>
      rw [List.filter_cons]
      by_cases hk : k = qk
      · subst hk
        have : (!(decide (k = k))) = false := by simp
        rw [this]
        simp only [Bool.false_eq_true, if_false]
        rw [buildQuanta, if_pos (by rw [hall]; rfl)]
        exact ih
      · have : (!(decide (k = qk))) = true := by simp [hk]
        rw [this]
        simp only [if_true]
        rw [buildQuanta, buildQuanta]
        by_cases hskip : (true && allExist (outRefsAt tout k)) = true
        · rw [if_pos hskip, if_pos hskip]
          exact ih
        · rw [if_neg hskip, if_neg hskip]
          by_cases hany : anyExist (outRefsAt tout k) = true
          · rw [if_pos hany, if_pos hany]
          · rw [if_neg hany, if_neg hany, ih]

/-- Whether an `Except` computation succeeded. -/
def exceptOk : Except ε α → Bool
  | .ok _ => true
  | .error _ => false

/-- The order-insensitive content of a quantum: its input and output
reference multisets. -/
def quantumView (q : QuantumModel) : Multiset DatasetRef × Multiset DatasetRef :=
  ((q.inputs : Multiset DatasetRef), (q.outputs : Multiset DatasetRef))

theorem quantumAt_inputs (tin tout : TaskAccum) (qk : List (String × Option Nat)) :
    (quantumAt tin tout qk).inputs = flattenRefs ((alistFind qk tin).getD []) := rfl

theorem quantumAt_outputs (tin tout : TaskAccum) (qk : List (String × Option Nat)) :
    (quantumAt tin tout qk).outputs = outRefsAt tout qk := rfl

theorem inRefsAt_eq (du : String → List String) (t : TaskDatasetTypes) (rows : List Row)
    (qk : List (String × Option Nat)) (h : rowsFor (qlinksOf du t) qk rows ≠ []) :
    flattenRefs ((alistFind qk (tinOf du t rows)).getD []) =
      flattenRefs (bucketFold t.inputs (rowsFor (qlinksOf du t) qk rows) []) := by
  rw [tinOf_find du t rows qk h]
  rfl

theorem tinOf_keys_perm (du : String → List String) (t : TaskDatasetTypes)
    {rows1 rows2 : List Row} (hp : rows1.Perm rows2) :
    (alistKeys (tinOf du t rows1)).Perm (alistKeys (tinOf du t rows2)) := by
  apply (List.perm_ext_iff_of_nodup (tinOf_keys_nodup du t rows1)
    (tinOf_keys_nodup du t rows2)).2
  intro qk
  rw [tinOf_keys_mem, tinOf_keys_mem]
  constructor
  · rintro ⟨r, hr, hq⟩
    exact ⟨r, hp.mem_iff.1 hr, hq⟩
  · rintro ⟨r, hr, hq⟩
    exact ⟨r, hp.mem_iff.2 hr, hq⟩

theorem rowsFor_perm_facts (du : String → List String) (t : TaskDatasetTypes)
    {rows1 rows2 : List Row} (hp : rows1.Perm rows2)
    {qk : List (String × Option Nat)} (hqk : qk ∈ alistKeys (tinOf du t rows1)) :
    rowsFor (qlinksOf du t) qk rows1 ≠ [] ∧
    rowsFor (qlinksOf du t) qk rows2 ≠ [] ∧
    (rowsFor (qlinksOf du t) qk rows1).Perm (rowsFor (qlinksOf du t) qk rows2) := by
  have hne1 : rowsFor (qlinksOf du t) qk rows1 ≠ [] :=
    (rowsFor_ne_nil_iff _ _ _).2 ((tinOf_keys_mem du t rows1 qk).1 hqk)
  have hpf : (rowsFor (qlinksOf du t) qk rows1).Perm (rowsFor (qlinksOf du t) qk rows2) :=
    hp.filter _
  have hne2 : rowsFor (qlinksOf du t) qk rows2 ≠ [] := by
    intro hh
    rw [hh] at hpf
    exact hne1 hpf.eq_nil
  exact ⟨hne1, hne2, hpf⟩

theorem outRefsAt_perm (du : String → List String) (t : TaskDatasetTypes)
    {rows1 rows2 : List Row} (hp : rows1.Perm rows2)
    (hcons : Consistent (t.inputs ++ t.outputs) rows1)
    {qk : List (String × Option Nat)} (hqk : qk ∈ alistKeys (tinOf du t rows1)) :
    (outRefsAt (toutOf du t rows1) qk).Perm (outRefsAt (toutOf du t rows2) qk) := by
  obtain ⟨hne1, hne2, hpf⟩ := rowsFor_perm_facts du t hp hqk
  rw [outRefsAt_eq du t rows1 qk hne1, outRefsAt_eq du t rows2 qk hne2]
  apply bucketFold_flatten_perm t.outputs hpf hne1
  intro r hr r' hr' ds hds h
  exact hcons r (List.mem_of_mem_filter hr) r' (List.mem_of_mem_filter hr')
    ds (List.mem_append_right _ hds) h

theorem inRefsAt_perm (du : String → List String) (t : TaskDatasetTypes)
    {rows1 rows2 : List Row} (hp : rows1.Perm rows2)
    (hcons : Consistent (t.inputs ++ t.outputs) rows1)
    {qk : List (String × Option Nat)} (hqk : qk ∈ alistKeys (tinOf du t rows1)) :
    (flattenRefs ((alistFind qk (tinOf du t rows1)).getD [])).Perm
      (flattenRefs ((alistFind qk (tinOf du t rows2)).getD [])) := by
  obtain ⟨hne1, hne2, hpf⟩ := rowsFor_perm_facts du t hp hqk
  rw [inRefsAt_eq du t rows1 qk hne1, inRefsAt_eq du t rows2 qk hne2]
  apply bucketFold_flatten_perm t.inputs hpf hne1
  intro r hr r' hr' ds hds h
  exact hcons r (List.mem_of_mem_filter hr) r' (List.mem_of_mem_filter hr')
    ds (List.mem_append_left _ hds) h

theorem quantumAt_view_eq (du : String → List String) (t : TaskDatasetTypes)
    {rows1 rows2 : List Row} (hp : rows1.Perm rows2)
    (hcons : Consistent (t.inputs ++ t.outputs) rows1)
    {qk : List (String × Option Nat)} (hqk : qk ∈ alistKeys (tinOf du t rows1)) :
    quantumView (quantumAt (tinOf du t rows1) (toutOf du t rows1) qk) =
      quantumView (quantumAt (tinOf du t rows2) (toutOf du t rows2) qk) := by
  unfold quantumView
  rw [quantumAt_inputs, quantumAt_inputs, quantumAt_outputs, quantumAt_outputs]
  rw [Multiset.coe_eq_coe.2 (inRefsAt_perm du t hp hcons hqk)]
  rw [Multiset.coe_eq_coe.2 (outRefsAt_perm du t hp hcons hqk)]

theorem errCond_outRefs_eq (du : String → List String) (t : TaskDatasetTypes)
    {rows1 rows2 : List Row} (hp : rows1.Perm rows2)
    (hcons : Consistent (t.inputs ++ t.outputs) rows1) (se : Bool)
    {qk : List (String × Option Nat)} (hqk : qk ∈ alistKeys (tinOf du t rows1)) :
    errCond se (outRefsAt (toutOf du t rows1) qk) =
      errCond se (outRefsAt (toutOf du t rows2) qk) := by
  have hperm := outRefsAt_perm du t hp hcons hqk
  rw [errCond, errCond, allExist_perm hperm, anyExist_perm hperm]

theorem taskQuanta_perm (du : String → List String) (se : Bool) (t : TaskDatasetTypes)
    {rows1 rows2 : List Row} (hp : rows1.Perm rows2)
    (hcons : Consistent (t.inputs ++ t.outputs) rows1) :
    exceptOk (taskQuanta du se t rows1) = exceptOk (taskQuanta du se t rows2) ∧
    (∀ l1 l2, taskQuanta du se t rows1 = .ok l1 → taskQuanta du se t rows2 = .ok l2 →
      (l1.map quantumView).Perm (l2.map quantumView)) := by
  have hkp := tinOf_keys_perm du t hp
  by_cases herr : ∃ qk ∈ alistKeys (tinOf du t rows1),
      errCond se (outRefsAt (toutOf du t rows1) qk) = true
  · obtain ⟨qk, hqk, hc⟩ := herr
    obtain ⟨refs1, he1, -⟩ := buildQuanta_error_of_mem se t.taskDef.taskName
      (tinOf du t rows1) (toutOf du t rows1) (alistKeys (tinOf du t rows1)) qk hqk hc
    have hqk2 : qk ∈ alistKeys (tinOf du t rows2) := hkp.mem_iff.1 hqk
    have hc2 : errCond se (outRefsAt (toutOf du t rows2) qk) = true := by
      rw [← errCond_outRefs_eq du t hp hcons se hqk]
      exact hc
    obtain ⟨refs2, he2, -⟩ := buildQuanta_error_of_mem se t.taskDef.taskName
      (tinOf du t rows2) (toutOf du t rows2) (alistKeys (tinOf du t rows2)) qk hqk2 hc2
    constructor
    · rw [taskQuanta, taskQuanta, he1, he2]
      rfl
    · intro l1 l2 h1 h2
      rw [taskQuanta, he1] at h1
      cases h1
  · push_neg at herr
    have herr1 : ∀ qk ∈ alistKeys (tinOf du t rows1),
        errCond se (outRefsAt (toutOf du t rows1) qk) = false :=
      fun qk hqk => Bool.eq_false_iff.2 (herr qk hqk)
    have herr2 : ∀ qk ∈ alistKeys (tinOf du t rows2),
        errCond se (outRefsAt (toutOf du t rows2) qk) = false := by
      intro qk hqk
      have hqk1 : qk ∈ alistKeys (tinOf du t rows1) := hkp.mem_iff.2 hqk
      rw [← errCond_outRefs_eq du t hp hcons se hqk1]
      exact herr1 qk hqk1
    have hok1 := buildQuanta_ok_form se t.taskDef.taskName
      (tinOf du t rows1) (toutOf du t rows1) (alistKeys (tinOf du t rows1)) herr1
    have hok2 := buildQuanta_ok_form se t.taskDef.taskName
      (tinOf du t rows2) (toutOf du t rows2) (alistKeys (tinOf du t rows2)) herr2
    constructor
    · rw [taskQuanta, taskQuanta, hok1, hok2]
      rfl
    · intro l1 l2 h1 h2
      rw [taskQuanta, hok1] at h1
      rw [taskQuanta, hok2] at h2
      injection h1 with h1
      injection h2 with h2
      subst h1
      subst h2
      rw [List.map_map, List.map_map]
      have e2 : (alistKeys (tinOf du t rows2)).filter
            (fun qk => !(se && allExist (outRefsAt (toutOf du t rows2) qk))) =
          (alistKeys (tinOf du t rows2)).filter
            (fun qk => !(se && allExist (outRefsAt (toutOf du t rows1) qk))) := by
        apply List.filter_congr
        intro qk hqk
        have hqk1 : qk ∈ alistKeys (tinOf du t rows1) := hkp.mem_iff.2 hqk
        rw [allExist_perm (outRefsAt_perm du t hp hcons hqk1)]
      rw [e2]
      have e3 : ((alistKeys (tinOf du t rows2)).filter
            (fun qk => !(se && allExist (outRefsAt (toutOf du t rows1) qk)))).map
            (quantumView ∘ quantumAt (tinOf du t rows2) (toutOf du t rows2)) =
          ((alistKeys (tinOf du t rows2)).filter
            (fun qk => !(se && allExist (outRefsAt (toutOf du t rows1) qk)))).map
            (quantumView ∘ quantumAt (tinOf du t rows1) (toutOf du t rows1)) := by
        apply List.map_congr_left
        intro qk hqk
        have hqk1 : qk ∈ alistKeys (tinOf du t rows1) :=
          hkp.mem_iff.2 (List.mem_of_mem_filter hqk)
        exact (quantumAt_view_eq du t hp hcons hqk1).symm
      rw [e3]
      exact (hkp.filter _).map _

theorem makeGraphTasks_cons_err1 (du : String → List String) (se : Bool)
    (t : TaskDatasetTypes) (rest : List TaskDatasetTypes) (rows : List Row)
    {e : BuildError} (h : taskQuanta du se t rows = .error e) :
    makeGraphTasks du se (t :: rest) rows = .error e := by
  rw [makeGraphTasks, h]
  rfl

theorem makeGraphTasks_cons_ok_err (du : String → List String) (se : Bool)
    (t : TaskDatasetTypes) (rest : List TaskDatasetTypes) (rows : List Row)
    {l : List QuantumModel} {e : BuildError} (h : taskQuanta du se t rows = .ok l)
    (hr : makeGraphTasks du se rest rows = .error e) :
    makeGraphTasks du se (t :: rest) rows = .error e := by
  rw [makeGraphTasks, h, hr]
  rfl

theorem makeGraphTasks_cons_ok_ok (du : String → List String) (se : Bool)
    (t : TaskDatasetTypes) (rest : List TaskDatasetTypes) (rows : List Row)
    {l : List QuantumModel} {g : List QuantumGraphNodes}
    (h : taskQuanta du se t rows = .ok l)
    (hr : makeGraphTasks du se rest rows = .ok g) :
    makeGraphTasks du se (t :: rest) rows =
      .ok ({ taskDef := t.taskDef, quanta := l } :: g) := by
  rw [makeGraphTasks, h, hr]
  rfl

theorem makeGraphTasks_perm (du : String → List String) (se : Bool) :
    ∀ (tds : List TaskDatasetTypes) {rows1 rows2 : List Row}, rows1.Perm rows2 →
      (∀ t ∈ tds, Consistent (t.inputs ++ t.outputs) rows1) →
      exceptOk (makeGraphTasks du se tds rows1) =
        exceptOk (makeGraphTasks du se tds rows2) ∧
      (∀ g1 g2, makeGraphTasks du se tds rows1 = .ok g1 →
        makeGraphTasks du se tds rows2 = .ok g2 →
        List.Forall₂ (fun n1 n2 => n1.taskDef = n2.taskDef ∧
          (n1.quanta.map quantumView).Perm (n2.quanta.map quantumView)) g1 g2) := by
  intro tds
  induction tds with
  | nil =>
      intro rows1 rows2 hp hcons
      refine ⟨rfl, ?_⟩
      intro g1 g2 h1 h2
      cases h1
      cases h2
      exact List.Forall₂.nil
  | cons t rest ih =>
      intro rows1 rows2 hp hcons
      have hct := hcons t (List.mem_cons.2 (Or.inl rfl))
      have hcr := fun t' ht' => hcons t' (List.mem_cons.2 (Or.inr ht'))
      obtain ⟨hok, hperm⟩ := taskQuanta_perm du se t hp hct
      obtain ⟨ihok, ihperm⟩ := ih hp hcr
      rcases h1 : taskQuanta du se t rows1 with e1 | l1 <;>
        rcases h2 : taskQuanta du se t rows2 with e2 | l2
      · constructor
        · rw [makeGraphTasks_cons_err1 du se t rest rows1 h1,
              makeGraphTasks_cons_err1 du se t rest rows2 h2]
          rfl
        · intro g1 g2 hg1 _
          rw [makeGraphTasks_cons_err1 du se t rest rows1 h1] at hg1
          cases hg1
      · exfalso
        rw [h1, h2] at hok
        simp [exceptOk] at hok
      · exfalso
        rw [h1, h2] at hok
        simp [exceptOk] at hok
      · rcases hr1 : makeGraphTasks du se rest rows1 with f1 | g1' <;>
          rcases hr2 : makeGraphTasks du se rest rows2 with f2 | g2'
        · constructor
          · rw [makeGraphTasks_cons_ok_err du se t rest rows1 h1 hr1,
                makeGraphTasks_cons_ok_err du se t rest rows2 h2 hr2]
            rfl
          · intro g1 g2 hg1 _
            rw [makeGraphTasks_cons_ok_err du se t rest rows1 h1 hr1] at hg1
            cases hg1
        · exfalso
          rw [hr1, hr2] at ihok
          simp [exceptOk] at ihok
        · exfalso
          rw [hr1, hr2] at ihok
          simp [exceptOk] at ihok
        · constructor
          · rw [makeGraphTasks_cons_ok_ok du se t rest rows1 h1 hr1,
                makeGraphTasks_cons_ok_ok du se t rest rows2 h2 hr2]
            rfl
          · intro g1 g2 hg1 hg2
            rw [makeGraphTasks_cons_ok_ok du se t rest rows1 h1 hr1] at hg1
            rw [makeGraphTasks_cons_ok_ok du se t rest rows2 h2 hr2] at hg2
            injection hg1 with hg1
            injection hg2 with hg2
            subst hg1
            subst hg2
            refine List.Forall₂.cons ⟨rfl, hperm l1 l2 h1 h2⟩ ?_
            exact ihperm g1' g2' hr1 hr2

instance [DecidableEq ε] [DecidableEq α] : DecidableEq (Except ε α) := fun x y =>
  match x, y with
  | .ok a, .ok b =>
      if h : a = b then isTrue (by rw [h])
      else isFalse (by intro hh; cases hh; exact h rfl)
  | .error a, .error b =>
      if h : a = b then isTrue (by rw [h])
      else isFalse (by intro hh; cases hh; exact h rfl)
  | .ok _, .error _ => isFalse (by intro hh; cases hh)
  | .error _, .ok _ => isFalse (by intro hh; cases hh)

/-- Concrete dataset types, rows and tasks used to evaluate the
theorems on closed inputs. -/
def dsRawW : DatasetType := ⟨"raw", ""⟩

def dsCalW : DatasetType := ⟨"calib", ""⟩

def duW : String → List String := fun u => if u = "visit" then ["v"] else []

def duE : String → List String := fun _ => []

def tW : TaskDatasetTypes :=
  { taskDef := { taskName := "a", config := ⟨["visit"]⟩, taskClass := some 1 },
    inputs := [dsRawW], outputs := [dsCalW] }

def rW1 : Row := { dataId := [("v", 1)], datasetRefs := fun ds => ⟨ds, [("v", 1)], none⟩ }

def rW2 : Row := { dataId := [("v", 2)], datasetRefs := fun ds => ⟨ds, [("v", 2)], none⟩ }

/-- C1, claim as stated, at the concrete input that falsifies it: the
two presentations are permutations of each other, yet the two builds
return different Graphs, because the quantum iteration order is the
dict insertion order (row arrival order), not a canonical sorted
order.  (The quanta do agree as sets here; only their order differs.) -/
theorem c1_counterexample :
    ([rW1, rW2].Perm [rW2, rW1]) ∧
    makeGraphTasks duW true [tW] [rW1, rW2] ≠ makeGraphTasks duW true [tW] [rW2, rW1] :=
  ⟨List.Perm.swap rW2 rW1 [], by decide⟩

/-- C1 (amended): with the same pipeline and the same rows in two
orders, and rows that never disagree on a reference for the same
(class, coordinate), the two builds succeed or fail together, and on
success the graphs agree task by task: same task definitions, and the
quanta of each task are equal as multisets of (input multiset, output
multiset) pairs.  The order of quanta inside a task follows first row
arrival and may differ. -/
theorem c1_graphs_agree_up_to_order (du : String → List String) (se : Bool)
    (tds : List TaskDatasetTypes) {rows1 rows2 : List Row}
    (hp : rows1.Perm rows2)
    (hcons : ∀ t ∈ tds, Consistent (t.inputs ++ t.outputs) rows1) :
    exceptOk (makeGraphTasks du se tds rows1) =
      exceptOk (makeGraphTasks du se tds rows2) ∧
    (∀ g1 g2, makeGraphTasks du se tds rows1 = .ok g1 →
      makeGraphTasks du se tds rows2 = .ok g2 →
      List.Forall₂ (fun n1 n2 => n1.taskDef = n2.taskDef ∧
        (n1.quanta.map quantumView).Perm (n2.quanta.map quantumView)) g1 g2) :=
  makeGraphTasks_perm du se tds hp hcons

/-- Witness for C1 (amended) at a concrete input. -/
theorem c1_graphs_agree_up_to_order_witness :
    (([rW1, rW2].Perm [rW2, rW1]) ∧
      (∀ t ∈ [tW], Consistent (t.inputs ++ t.outputs) [rW1, rW2])) ∧
    exceptOk (makeGraphTasks duW true [tW] [rW1, rW2]) =
      exceptOk (makeGraphTasks duW true [tW] [rW2, rW1]) :=
  ⟨⟨List.Perm.swap rW2 rW1 [], by decide⟩,
    (c1_graphs_agree_up_to_order duW true [tW] (List.Perm.swap rW2 rW1 []) (by decide)).1⟩

theorem accumOne_find_last (ql : List String) (dss : List DatasetType) {ds : DatasetType}
    (hds : ds ∈ dss) (rows : List Row) (r : Row) :
    alistFind (dataRefKey (r.datasetRefs ds))
      (innerAt ds ((alistFind (qkeyOf ql r) (accumOne ql dss (rows ++ [r]) [])).getD [])) =
      some (r.datasetRefs ds) := by
  have hne : rowsFor ql (qkeyOf ql r) (rows ++ [r]) ≠ [] := by
    apply (rowsFor_ne_nil_iff _ _ _).2
    exact ⟨r, by simp, rfl⟩
  rw [accumOne_find_rows ql dss (qkeyOf ql r) (rows ++ [r]) [] hne, Option.getD_some]
  have hsplit : rowsFor ql (qkeyOf ql r) (rows ++ [r]) =
      rowsFor ql (qkeyOf ql r) rows ++ [r] := by
    rw [rowsFor, List.filter_append]
    congr 1
    simp [rowsFor]
  rw [hsplit]
  exact bucketFold_find_last dss hds _ r _

/-- C2 (amended): the per-task accumulation is an overwrite, not a
no-op: after all rows are processed, the reference stored for a
(class, dedup-key) slot is the one contributed by the last row that
wrote it, whatever references (materialized or not) earlier rows had
put there; no fault is ever signalled for a disagreement. -/
theorem c2_accumulation_overwrites (du : String → List String) (t : TaskDatasetTypes)
    (rows : List Row) (r : Row) (ds : DatasetType) :
    (ds ∈ t.inputs →
      alistFind (dataRefKey (r.datasetRefs ds))
        (innerAt ds ((alistFind (qkeyOf (qlinksOf du t) r)
          (tinOf du t (rows ++ [r]))).getD [])) = some (r.datasetRefs ds)) ∧
    (ds ∈ t.outputs →
      alistFind (dataRefKey (r.datasetRefs ds))
        (innerAt ds ((alistFind (qkeyOf (qlinksOf du t) r)
          (toutOf du t (rows ++ [r]))).getD [])) = some (r.datasetRefs ds)) := by
  constructor
  · intro hds
    rw [tinOf_eq]
    exact accumOne_find_last (qlinksOf du t) t.inputs hds rows r
  · intro hds
    rw [toutOf_eq]
    exact accumOne_find_last (qlinksOf du t) t.outputs hds rows r

/-- Witness for C2 (amended) at a concrete input. -/
theorem c2_accumulation_overwrites_witness :
    dsRawW ∈ tW.inputs ∧
    alistFind (dataRefKey (rW2.datasetRefs dsRawW))
      (innerAt dsRawW ((alistFind (qkeyOf (qlinksOf duW tW) rW2)
        (tinOf duW tW ([rW1] ++ [rW2]))).getD [])) = some (rW2.datasetRefs dsRawW) :=
  ⟨by decide, (c2_accumulation_overwrites duW tW [rW1] rW2 dsRawW).1 (by decide)⟩

def tC2 : TaskDatasetTypes :=
  { taskDef := { taskName := "c", config := ⟨[]⟩, taskClass := some 2 },
    inputs := [], outputs := [dsCalW] }

def rC2a : Row := { dataId := [], datasetRefs := fun ds => ⟨ds, [], some 7⟩ }

def rC2b : Row := { dataId := [], datasetRefs := fun ds => ⟨ds, [], none⟩ }

/-- C2, claim as stated, at the concrete input that falsifies it: two
rows carry references with equal (class, coordinate) but disagreeing
materialized identity.  The build neither keeps the earlier
(materialized) reference nor signals any fault: it succeeds, and the
later, un-materialized reference silently survives in the quantum. -/
theorem c2_counterexample :
    dataRefKey (rC2a.datasetRefs dsCalW) = dataRefKey (rC2b.datasetRefs dsCalW) ∧
    rC2a.datasetRefs dsCalW ≠ rC2b.datasetRefs dsCalW ∧
    makeGraphTasks duE false [tC2] [rC2a, rC2b] =
      .ok [{ taskDef := tC2.taskDef,
             quanta := [{ inputs := [], outputs := [⟨dsCalW, [], none⟩] }] }] := by
  decide

theorem anyExist_of_ne_nil_allExist {refs : List DatasetRef} (hne : refs ≠ [])
    (hall : allExist refs = true) : anyExist refs = true := by
  rcases refs with _ | ⟨a, rest⟩
  · exact absurd rfl hne
  · rw [allExist, List.all_cons, Bool.and_eq_true] at hall
    rw [anyExist, List.any_cons, hall.1]
    rfl

/-- C4 (amended): for a candidate quantum all of whose output
references carry a materialized identity: with `skipExisting = true`
the build behaves exactly as if the quantum's key were not a candidate
at all (it is omitted and raises nothing); with `skipExisting = false`
and at least one output reference, the build raises
`OutputExistsError` for the task.  (With zero output references the
`false` case raises nothing; see the counterexample.) -/
theorem c4_full_preexistence (du : String → List String) (t : TaskDatasetTypes)
    (rows : List Row) (qk : List (String × Option Nat))
    (hqk : qk ∈ alistKeys (tinOf du t rows))
    (hall : allExist (outRefsAt (toutOf du t rows) qk) = true) :
    taskQuanta du true t rows =
      buildQuanta true t.taskDef.taskName (tinOf du t rows) (toutOf du t rows)
        ((alistKeys (tinOf du t rows)).filter (fun k => !(decide (k = qk)))) ∧
    (outRefsAt (toutOf du t rows) qk ≠ [] →
      ∃ refs, taskQuanta du false t rows = .error (.outputExists t.taskDef.taskName refs)) := by
  constructor
  · rw [taskQuanta]
    exact buildQuanta_skip_filter t.taskDef.taskName _ _ qk hall _
  · intro hne
    have hany := anyExist_of_ne_nil_allExist hne hall
    have herr : errCond false (outRefsAt (toutOf du t rows) qk) = true := by
      rw [errCond, hany]
      rfl
    obtain ⟨refs, he, -⟩ := buildQuanta_error_of_mem false t.taskDef.taskName
      (tinOf du t rows) (toutOf du t rows) (alistKeys (tinOf du t rows)) qk hqk herr
    refine ⟨refs, ?_⟩
    rw [taskQuanta]
    exact he

def tC5 : TaskDatasetTypes :=
  { taskDef := { taskName := "e", config := ⟨[]⟩, taskClass := some 4 },
    inputs := [], outputs := [dsCalW] }

def rEx : Row := { dataId := [], datasetRefs := fun ds => ⟨ds, [], some 5⟩ }

/-- Witness for C4 (amended) at a concrete input. -/
theorem c4_full_preexistence_witness :
    ((qkeyOf (qlinksOf duE tC5) rEx ∈ alistKeys (tinOf duE tC5 [rEx])) ∧
      allExist (outRefsAt (toutOf duE tC5 [rEx]) (qkeyOf (qlinksOf duE tC5) rEx)) = true) ∧
    (taskQuanta duE true tC5 [rEx] =
      buildQuanta true tC5.taskDef.taskName (tinOf duE tC5 [rEx]) (toutOf duE tC5 [rEx])
        ((alistKeys (tinOf duE tC5 [rEx])).filter
          (fun k => !(decide (k = qkeyOf (qlinksOf duE tC5) rEx)))) ∧
     (outRefsAt (toutOf duE tC5 [rEx]) (qkeyOf (qlinksOf duE tC5) rEx) ≠ [] →
       ∃ refs, taskQuanta duE false tC5 [rEx] =
         .error (.outputExists tC5.taskDef.taskName refs))) :=
  ⟨⟨by decide, by decide⟩,
    c4_full_preexistence duE tC5 [rEx] (qkeyOf (qlinksOf duE tC5) rEx)
      (by decide) (by decide)⟩

def tC4 : TaskDatasetTypes :=
  { taskDef := { taskName := "d", config := ⟨[]⟩, taskClass := some 3 },
    inputs := [dsRawW], outputs := [] }

/-- C4, claim as stated, at the concrete input that falsifies it: a
task with no output dataset types yields a candidate quantum with an
empty output list, so all of its output references vacuously carry a
materialized identity; with `skipExisting = false` the claim demands
`OutputExistsError`, but the build succeeds. -/
theorem c4_counterexample :
    qkeyOf (qlinksOf duE tC4) rC2b ∈ alistKeys (tinOf duE tC4 [rC2b]) ∧
    allExist (outRefsAt (toutOf duE tC4 [rC2b]) (qkeyOf (qlinksOf duE tC4) rC2b)) = true ∧
    taskQuanta duE false tC4 [rC2b] =
      .ok [{ inputs := [⟨dsRawW, [], none⟩], outputs := [] }] := by
  decide

/-- C5: a candidate quantum with at least one but not all output
references materialized raises `OutputExistsError` naming the task,
whatever the value of `skipExisting`; the reference list carried by
the error contains a materialized (pre-existing) reference. -/
theorem c5_partial_preexistence_conflict (du : String → List String) (se : Bool)
    (t : TaskDatasetTypes) (rows : List Row) (qk : List (String × Option Nat))
    (hqk : qk ∈ alistKeys (tinOf du t rows))
    (hany : anyExist (outRefsAt (toutOf du t rows) qk) = true)
    (hnall : allExist (outRefsAt (toutOf du t rows) qk) = false) :
    ∃ refs, taskQuanta du se t rows = .error (.outputExists t.taskDef.taskName refs) ∧
      anyExist refs = true := by
  have herr : errCond se (outRefsAt (toutOf du t rows) qk) = true := by
    rw [errCond, hany, hnall]
    cases se <;> rfl
  obtain ⟨refs, he, hr⟩ := buildQuanta_error_of_mem se t.taskDef.taskName
    (tinOf du t rows) (toutOf du t rows) (alistKeys (tinOf du t rows)) qk hqk herr
  refine ⟨refs, ?_, hr⟩
  rw [taskQuanta]
  exact he

def rP1 : Row := { dataId := [("x", 1)], datasetRefs := fun ds => ⟨ds, [("x", 1)], some 3⟩ }

def rP2 : Row := { dataId := [("x", 2)], datasetRefs := fun ds => ⟨ds, [("x", 2)], none⟩ }

/-- Witness for C5 at a concrete input (one of two output references
pre-exists; `skipExisting = true` does not avert the error). -/
theorem c5_partial_preexistence_conflict_witness :
    ((qkeyOf (qlinksOf duE tC5) rP1 ∈ alistKeys (tinOf duE tC5 [rP1, rP2])) ∧
      anyExist (outRefsAt (toutOf duE tC5 [rP1, rP2]) (qkeyOf (qlinksOf duE tC5) rP1)) = true ∧
      allExist (outRefsAt (toutOf duE tC5 [rP1, rP2]) (qkeyOf (qlinksOf duE tC5) rP1)) = false) ∧
    ∃ refs, taskQuanta duE true tC5 [rP1, rP2] =
        .error (.outputExists tC5.taskDef.taskName refs) ∧ anyExist refs = true :=
  ⟨⟨by decide, by decide, by decide⟩,
    c5_partial_preexistence_conflict duE true tC5 [rP1, rP2]
      (qkeyOf (qlinksOf duE tC5) rP1) (by decide) (by decide) (by decide)⟩

theorem bucketFold_nil_types : ∀ (rs : List Row) (b : Buckets), bucketFold [] rs b = b := by
  intro rs
  induction rs with
  | nil => intro b; rfl
  | cons r rest ih =>
      intro b
      rw [bucketFold]
      exact ih _

theorem outRefsAt_no_outputs (du : String → List String) (t : TaskDatasetTypes)
    (rows : List Row) (qk : List (String × Option Nat)) (hout : t.outputs = []) :
    outRefsAt (toutOf du t rows) qk = [] := by
  by_cases h : rowsFor (qlinksOf du t) qk rows = []
  · rw [outRefsAt, toutOf_eq, accumOne_find_no_row _ _ _ rows [] h]
    rfl
  · rw [outRefsAt, toutOf_eq, hout, accumOne_find_rows _ _ _ rows [] h, Option.getD_some,
        bucketFold_nil_types]
    rfl

theorem buildQuanta_all_skip (se : Bool) (tn : String) (tin tout : TaskAccum) :
    ∀ (keys : List (List (String × Option Nat))),
      (∀ qk ∈ keys, (se && allExist (outRefsAt tout qk)) = true) →
      buildQuanta se tn tin tout keys = .ok [] := by
  intro keys
  induction keys with
  | nil => intro _; rfl
  | cons k rest ih =>
      intro h
      rw [buildQuanta, if_pos (h k (List.mem_cons.2 (Or.inl rfl)))]
      exact ih (fun qk hqk => h qk (List.mem_cons.2 (Or.inr hqk)))

/-- C10: a task declaring no output dataset types has only quanta with
empty output lists, so the all-outputs-exist test holds vacuously:
with `skipExisting = true` every quantum of the task is silently
dropped (the task's quantum list is empty); with
`skipExisting = false` every candidate quantum proceeds, with inputs
attached and no outputs, and no error is raised. -/
theorem c10_no_declared_outputs (du : String → List String) (t : TaskDatasetTypes)
    (rows : List Row) (hout : t.outputs = []) :
    taskQuanta du true t rows = .ok [] ∧
    taskQuanta du false t rows =
      .ok ((alistKeys (tinOf du t rows)).map
        (quantumAt (tinOf du t rows) (toutOf du t rows))) ∧
    ∀ qk, (quantumAt (tinOf du t rows) (toutOf du t rows) qk).outputs = [] := by
  refine ⟨?_, ?_, ?_⟩
  · rw [taskQuanta]
    apply buildQuanta_all_skip
    intro qk _
    rw [outRefsAt_no_outputs du t rows qk hout]
    rfl
  · rw [taskQuanta]
    have herr : ∀ qk ∈ alistKeys (tinOf du t rows),
        errCond false (outRefsAt (toutOf du t rows) qk) = false := by
      intro qk _
      rw [errCond, outRefsAt_no_outputs du t rows qk hout]
      rfl
    rw [buildQuanta_ok_form false _ _ _ _ herr]
    have hfil : (alistKeys (tinOf du t rows)).filter
        (fun qk => !(false && allExist (outRefsAt (toutOf du t rows) qk))) =
        alistKeys (tinOf du t rows) :=
      List.filter_eq_self.2 (fun qk _ => rfl)
    rw [hfil]
  · intro qk
    rw [quantumAt_outputs, outRefsAt_no_outputs du t rows qk hout]

/-- Witness for C10 at a concrete input. -/
theorem c10_no_declared_outputs_witness :
    (tC4.outputs = []) ∧ taskQuanta duE true tC4 [rC2b] = .ok [] :=
  ⟨rfl, (c10_no_declared_outputs duE tC4 [rC2b] rfl).1⟩

theorem makeGraphTasks_ok_taskDefs (du : String → List String) (se : Bool) :
    ∀ (tds : List TaskDatasetTypes) (rows : List Row) (g : List QuantumGraphNodes),
      makeGraphTasks du se tds rows = .ok g →
      g.map QuantumGraphNodes.taskDef = tds.map TaskDatasetTypes.taskDef := by
  intro tds
  induction tds with
  | nil =>
      intro rows g h
      cases h
      rfl
  | cons t rest ih =>
      intro rows g h
      rcases h1 : taskQuanta du se t rows with e | l
      · rw [makeGraphTasks_cons_err1 du se t rest rows h1] at h
        cases h
      · rcases hr : makeGraphTasks du se rest rows with e | g'
        · rw [makeGraphTasks_cons_ok_err du se t rest rows h1 hr] at h
          cases h
        · rw [makeGraphTasks_cons_ok_ok du se t rest rows h1 hr] at h
          injection h with h
          subst h
          rw [List.map_cons, List.map_cons, ih rows g' hr]

/-- C6: a successful build returns one `QuantumGraphNodes` per task of
the input pipeline, in pipeline order: the node task definitions are
exactly the (resolved) pipeline task definitions, in order — also for
tasks whose quantum list came out empty. -/
theorem c6_one_node_per_task (env : TaskEnv) (du : String → List String) (se : Bool)
    (pipeline : List TaskDef) (rows : List Row) (g : List QuantumGraphNodes)
    (h : makeGraphModel env du se pipeline rows = .ok g) :
    g.map QuantumGraphNodes.taskDef = pipeline.map (loadTaskClassPure env) := by
  have h' : makeGraphTasks du se
      ((pipeline.map (loadTaskClassPure env)).map (fun td =>
        { taskDef := td,
          inputs := env.getInputDatasetTypes (td.taskClass.getD 0) td.config,
          outputs := env.getOutputDatasetTypes (td.taskClass.getD 0) td.config })) rows =
      .ok g := h
  rw [makeGraphTasks_ok_taskDefs du se _ rows g h', List.map_map]
  exact List.map_id _

def envW : TaskEnv :=
  { loadTaskClass := fun n => (9, "pkg." ++ n),
    getInputDatasetTypes := fun _ _ => [dsRawW],
    getOutputDatasetTypes := fun _ _ => [dsCalW] }

def tdU : TaskDef := { taskName := "a", config := ⟨[]⟩, taskClass := none }

/-- Witness for C6 at a concrete input (one task, no rows, so the
single node carries an empty quantum list). -/
theorem c6_one_node_per_task_witness :
    makeGraphModel envW duE false [tdU] [] =
      .ok [{ taskDef := loadTaskClassPure envW tdU, quanta := [] }] ∧
    [QuantumGraphNodes.mk (loadTaskClassPure envW tdU) []].map QuantumGraphNodes.taskDef =
      [tdU].map (loadTaskClassPure envW) :=
  ⟨by decide, c6_one_node_per_task envW duE false [tdU] [] _ (by decide)⟩

/-- C7: `_loadTaskClass` never mutates the caller's object.  For a
valid reference into the heap: the object behind the caller's
reference is unchanged by the call; when the class was unresolved, the
returned reference is a different (fresh) object carrying the loaded
class and the fully-qualified name; when the class was already
resolved, the call returns the caller's reference and leaves the heap
untouched. -/
theorem c7_load_task_class_frame (env : TaskEnv) (h : TDHeap) (r : Nat)
    (hr : r < h.next) :
    heapGet (loadTaskClassHeap env h r).2 r = heapGet h r ∧
    ((heapGet h r).taskClass = none →
      (loadTaskClassHeap env h r).1 ≠ r ∧
      heapGet (loadTaskClassHeap env h r).2 (loadTaskClassHeap env h r).1 =
        { heapGet h r with
            taskClass := some (env.loadTaskClass (heapGet h r).taskName).1,
            taskName := (env.loadTaskClass (heapGet h r).taskName).2 }) ∧
    ((heapGet h r).taskClass ≠ none → loadTaskClassHeap env h r = (r, h)) := by
  have hne : r ≠ h.next := Nat.ne_of_lt hr
  rcases htc : (heapGet h r).taskClass with _ | c
  · have htc2 : (h.data r).taskClass = none := htc
    refine ⟨?_, ?_, ?_⟩
    · simp [loadTaskClassHeap, heapGet, heapSet, heapAlloc, htc2, hne]
    · intro _
      constructor
      · simp only [loadTaskClassHeap, heapGet, heapAlloc, htc2]
        exact fun hh => hne hh.symm
      · simp [loadTaskClassHeap, heapGet, heapSet, heapAlloc, htc2]
    · intro hcon
      exact absurd rfl hcon
  · refine ⟨?_, ?_, ?_⟩
    · simp [loadTaskClassHeap, htc]
    · intro hcon
      cases hcon
    · intro _
      simp [loadTaskClassHeap, htc]

def hW : TDHeap := { data := fun _ => tdU, next := 5 }

/-- Witness for C7 at a concrete input. -/
theorem c7_load_task_class_frame_witness :
    (2 < 5 ∧ (heapGet hW 2).taskClass = none) ∧
    heapGet (loadTaskClassHeap envW hW 2).2 2 = heapGet hW 2 ∧
    (loadTaskClassHeap envW hW 2).1 ≠ 2 :=
  ⟨⟨by decide, rfl⟩,
    (c7_load_task_class_frame envW hW 2 (by decide)).1,
    ((c7_load_task_class_frame envW hW 2 (by decide)).2.1 rfl).1⟩

/-- C9: constructing a `Quantum` with a director that is a key of
neither the input nor the output mapping fails; an absent director, or
one present as a key in either mapping, succeeds and stores inputs,
outputs, extras and director unchanged. -/
theorem c9_director_invariant (inputs outputs : List (DatasetType × List DatasetRef))
    (extras : Option Nat) (director : Option DatasetType) :
    (∀ d, director = some d → d ∉ alistKeys inputs → d ∉ alistKeys outputs →
      quantumInit inputs outputs extras director =
        .error "Director dataset is not in inputs or outputs") ∧
    (director = none →
      quantumInit inputs outputs extras director =
        .ok { inputs := inputs, outputs := outputs, extras := extras, director := none }) ∧
    (∀ d, director = some d → (d ∈ alistKeys inputs ∨ d ∈ alistKeys outputs) →
      quantumInit inputs outputs extras director =
        .ok { inputs := inputs, outputs := outputs, extras := extras,
              director := some d }) := by
  refine ⟨?_, ?_, ?_⟩
  · intro d hd hin hout
    subst hd
    rw [quantumInit, if_pos ⟨hin, hout⟩]
  · intro hd
    subst hd
    rfl
  · intro d hd hmem
    subst hd
    rw [quantumInit, if_neg]
    rintro ⟨hin, hout⟩
    rcases hmem with hm | hm
    · exact hin hm
    · exact hout hm

/-- Witness for C9 at concrete inputs. -/
theorem c9_director_invariant_witness :
    quantumInit [(dsRawW, [])] [] none (some dsCalW) =
      .error "Director dataset is not in inputs or outputs" ∧
    quantumInit [(dsRawW, [])] [] none (some dsRawW) =
      .ok { inputs := [(dsRawW, [])], outputs := [], extras := none,
            director := some dsRawW } :=
  ⟨(c9_director_invariant [(dsRawW, [])] [] none (some dsCalW)).1 dsCalW rfl
      (by decide) (by decide),
   (c9_director_invariant [(dsRawW, [])] [] none (some dsRawW)).2.2 dsRawW rfl
      (Or.inl (by decide))⟩

/-- The (class, coordinate) identity of a dataset reference, with the
coordinate taken up to ordering as in `_dataRefKey`. -/
def refIdent (r : DatasetRef) : DatasetType × DataId := (r.datasetType, dataRefKey r)

/-- Well-formedness of the registry rows over the given dataset types:
the reference a row binds to a dataset type is a reference of that
dataset type (part of the registry contract). -/
abbrev RowsWF (dss : List DatasetType) (rows : List Row) : Prop :=
  ∀ r ∈ rows, ∀ ds ∈ dss, (r.datasetRefs ds).datasetType = ds

theorem flattenRefs_mem {b : Buckets} {v : DatasetRef} :
    v ∈ flattenRefs b ↔ ∃ q ∈ b, ∃ p ∈ q.2, v = p.2 := by
  unfold flattenRefs
  rw [List.mem_flatten]
  constructor
  · rintro ⟨l, hl, hv⟩
    rw [List.mem_map] at hl
    obtain ⟨q, hq, rfl⟩ := hl
    rw [List.mem_map] at hv
    obtain ⟨p, hp, rfl⟩ := hv
    exact ⟨q, hq, p, hp, rfl⟩
  · rintro ⟨q, hq, p, hp, rfl⟩
    exact ⟨q.2.map Prod.snd, List.mem_map_of_mem _ hq, List.mem_map_of_mem _ hp⟩

theorem flattenRefs_nodup :
    ∀ (b : Buckets), (alistKeys b).Nodup →
      (∀ q ∈ b, (alistKeys q.2).Nodup) →
      (∀ q ∈ b, ∀ p ∈ q.2, p.2.datasetType = q.1 ∧ p.1 = dataRefKey p.2) →
      ((flattenRefs b).map refIdent).Nodup := by
  intro b
  induction b with
  | nil => intro _ _ _; simp [flattenRefs]
  | cons q rest ih =>
      intro hKeys hInner hEnt
      have hflat : flattenRefs (q :: rest) = q.2.map Prod.snd ++ flattenRefs rest := by
        simp [flattenRefs]
      rw [hflat, List.map_append]
      rw [alistKeys_cons] at hKeys
      have hK := List.nodup_cons.1 hKeys
      apply List.Nodup.append
      · rw [List.map_map]
        have hmap : q.2.map (refIdent ∘ Prod.snd) = q.2.map (fun p => (q.1, p.1)) := by
          apply List.map_congr_left
          intro p hp
          obtain ⟨hdt, hkey⟩ := hEnt q (List.mem_cons.2 (Or.inl rfl)) p hp
          show (p.2.datasetType, dataRefKey p.2) = (q.1, p.1)
          rw [hdt, hkey]
        rw [hmap]
        have hcomp : q.2.map (fun p => (q.1, p.1)) =
            (alistKeys q.2).map (fun k => (q.1, k)) := by
          rw [alistKeys, List.map_map]
          rfl
        rw [hcomp]
        have hinj : Function.Injective (fun k : DataId => (q.1, k)) := by
          intro a b hab
          injection hab with _ hab2
        exact (hInner q (List.mem_cons.2 (Or.inl rfl))).map hinj
      · exact ih hK.2 (fun q' hq' => hInner q' (List.mem_cons_of_mem _ hq'))
          (fun q' hq' => hEnt q' (List.mem_cons_of_mem _ hq'))
      · intro x hx1 hx2
        rw [List.mem_map] at hx1 hx2
        obtain ⟨v, hv, rfl⟩ := hx1
        obtain ⟨v', hv', hx⟩ := hx2
        rw [List.mem_map] at hv
        obtain ⟨p, hp, rfl⟩ := hv
        obtain ⟨q', hq', p', hp', rfl⟩ := flattenRefs_mem.1 hv'
        have h1 := hEnt q (List.mem_cons.2 (Or.inl rfl)) p hp
        have h2 := hEnt q' (List.mem_cons_of_mem _ hq') p' hp'
        have hq1 : q'.1 = q.1 := by
          have hfst := congrArg Prod.fst hx
          simp only [refIdent] at hfst
          rw [← h1.1, ← h2.1]
          exact hfst
        apply hK.1
        rw [← hq1]
        exact List.mem_map_of_mem Prod.fst hq'

theorem bucket_entry_wf (dss : List DatasetType) (rs : List Row)
    (hwf : ∀ r ∈ rs, ∀ ds ∈ dss, (r.datasetRefs ds).datasetType = ds) :
    (alistKeys (bucketFold dss rs [])).Nodup ∧
    (∀ q ∈ bucketFold dss rs [], (alistKeys q.2).Nodup) ∧
    (∀ q ∈ bucketFold dss rs [], ∀ p ∈ q.2,
      p.2.datasetType = q.1 ∧ p.1 = dataRefKey p.2) := by
  have hkeys : (alistKeys (bucketFold dss rs [])).Nodup := by
    rcases hrs : rs with _ | ⟨r, rest⟩
    · simp [bucketFold, alistKeys_nil]
    · rw [← hrs, bucketFold_keys dss rs [] (by rw [hrs]; intro hh; cases hh)]
      exact keysUnion_nodup dss _ (by simp [alistKeys_nil])
  refine ⟨hkeys, ?_, ?_⟩
  · intro q hq
    have hfind : alistFind q.1 (bucketFold dss rs []) = some q.2 := by
      rcases q with ⟨ds, inner⟩
      exact alistMem_find _ hkeys hq
    have : innerAt q.1 (bucketFold dss rs []) = q.2 := by
      rw [innerAt, hfind, Option.getD_some]
    rw [← this]
    have hn := bucketFold_inner_nodup dss rs []
      (fun ds' => by simp [innerAt_nil, alistKeys_nil]) q.1
    exact hn
  · intro q hq p hp
    have hfind : alistFind q.1 (bucketFold dss rs []) = some q.2 := by
      rcases q with ⟨ds, inner⟩
      exact alistMem_find _ hkeys hq
    have hinner : p ∈ innerAt q.1 (bucketFold dss rs []) := by
      rw [innerAt, hfind, Option.getD_some]
      exact hp
    rcases bucketFold_inner_sub dss rs [] hinner with h0 | ⟨hds, r, hr, hpe⟩
    · simp [innerAt, alistFind] at h0
    · constructor
      · rw [hpe]
        exact hwf r hr q.1 hds
      · rw [hpe]

theorem taskQuanta_dedup (du : String → List String) (se : Bool) (t : TaskDatasetTypes)
    (rows : List Row) (l : List QuantumModel)
    (hwf : RowsWF (t.inputs ++ t.outputs) rows)
    (hok : taskQuanta du se t rows = .ok l) :
    ∀ q ∈ l, (q.inputs.map refIdent).Nodup ∧ (q.outputs.map refIdent).Nodup := by
  rw [taskQuanta] at hok
  have herr := buildQuanta_ok_no_err se t.taskDef.taskName (tinOf du t rows)
    (toutOf du t rows) (alistKeys (tinOf du t rows)) l hok
  rw [buildQuanta_ok_form se t.taskDef.taskName (tinOf du t rows) (toutOf du t rows)
    (alistKeys (tinOf du t rows)) herr] at hok
  injection hok with hok
  subst hok
  intro q hq
  rw [List.mem_map] at hq
  obtain ⟨qk, hqk, rfl⟩ := hq
  have hqk' : qk ∈ alistKeys (tinOf du t rows) := List.mem_of_mem_filter hqk
  have hne : rowsFor (qlinksOf du t) qk rows ≠ [] :=
    (rowsFor_ne_nil_iff _ _ _).2 ((tinOf_keys_mem du t rows qk).1 hqk')
  have hsub : ∀ r ∈ rowsFor (qlinksOf du t) qk rows, r ∈ rows :=
    fun r hr => List.mem_of_mem_filter hr
  constructor
  · rw [quantumAt_inputs, inRefsAt_eq du t rows qk hne]
    obtain ⟨h1, h2, h3⟩ := bucket_entry_wf t.inputs (rowsFor (qlinksOf du t) qk rows)
      (fun r hr ds hds => hwf r (hsub r hr) ds (List.mem_append_left _ hds))
    exact flattenRefs_nodup _ h1 h2 h3
  · rw [quantumAt_outputs, outRefsAt_eq du t rows qk hne]
    obtain ⟨h1, h2, h3⟩ := bucket_entry_wf t.outputs (rowsFor (qlinksOf du t) qk rows)
      (fun r hr ds hds => hwf r (hsub r hr) ds (List.mem_append_right _ hds))
    exact flattenRefs_nodup _ h1 h2 h3

/-- C8: in every quantum of a successfully built graph (over
well-formed registry rows), each (DatasetClass, Coordinate) pair
occurs at most once among the quantum's input references and at most
once among its output references. -/
theorem c8_dedup_invariant (du : String → List String) (se : Bool) :
    ∀ (tds : List TaskDatasetTypes) (rows : List Row) (g : List QuantumGraphNodes),
      (∀ t ∈ tds, RowsWF (t.inputs ++ t.outputs) rows) →
      makeGraphTasks du se tds rows = .ok g →
      ∀ n ∈ g, ∀ q ∈ n.quanta,
        (q.inputs.map refIdent).Nodup ∧ (q.outputs.map refIdent).Nodup := by
  intro tds
  induction tds with
  | nil =>
      intro rows g _ h n hn
      cases h
      cases hn
  | cons t rest ih =>
      intro rows g hwf h n hn
      rcases h1 : taskQuanta du se t rows with e | l
      · rw [makeGraphTasks_cons_err1 du se t rest rows h1] at h
        cases h
      · rcases hr : makeGraphTasks du se rest rows with e | g'
        · rw [makeGraphTasks_cons_ok_err du se t rest rows h1 hr] at h
          cases h
        · rw [makeGraphTasks_cons_ok_ok du se t rest rows h1 hr] at h
          injection h with h
          subst h
          rcases List.mem_cons.1 hn with hn | hn
          · subst hn
            exact taskQuanta_dedup du se t rows l
              (hwf t (List.mem_cons.2 (Or.inl rfl))) h1
          · exact ih rows g'
              (fun t' ht' => hwf t' (List.mem_cons.2 (Or.inr ht'))) hr n hn

def gW8 : List QuantumGraphNodes :=
  [{ taskDef := tW.taskDef,
     quanta := [{ inputs := [⟨dsRawW, [("v", 1)], none⟩],
                  outputs := [⟨dsCalW, [("v", 1)], none⟩] },
                { inputs := [⟨dsRawW, [("v", 2)], none⟩],
                  outputs := [⟨dsCalW, [("v", 2)], none⟩] }] }]

/-- Witness for C8 at a concrete input. -/
theorem c8_dedup_invariant_witness :
    ((∀ t ∈ [tW], RowsWF (t.inputs ++ t.outputs) [rW1, rW2]) ∧
      makeGraphTasks duW true [tW] [rW1, rW2] = .ok gW8) ∧
    (∀ n ∈ gW8, ∀ q ∈ n.quanta,
      (q.inputs.map refIdent).Nodup ∧ (q.outputs.map refIdent).Nodup) :=
  ⟨⟨by decide, by decide⟩,
    c8_dedup_invariant duW true [tW] [rW1, rW2] gW8 (by decide) (by decide)⟩

theorem registerTypes_name_keyed :
    ∀ (l : List DatasetType) (m : List (String × DatasetType)),
      (∀ p ∈ m, p.2.name = p.1) → ∀ p ∈ registerTypes l m, p.2.name = p.1 := by
  intro l
  induction l with
  | nil => intro m h; exact h
  | cons ds rest ih =>
      intro m h
      apply ih
      intro p hp
      rcases alistSet_mem_sub _ hp with hp | hp
      · exact h p hp
      · rw [hp]

theorem allDatasetTypesFold_name_keyed :
    ∀ (tds : List TaskDatasetTypes) (m : List (String × DatasetType)),
      (∀ p ∈ m, p.2.name = p.1) → ∀ p ∈ allDatasetTypesFold m tds, p.2.name = p.1 := by
  intro tds
  induction tds with
  | nil => intro m h; exact h
  | cons t rest ih =>
      intro m h
      apply ih
      exact registerTypes_name_keyed t.outputs _ (registerTypes_name_keyed t.inputs m h)

theorem registerTypes_keys_mono :
    ∀ (l : List DatasetType) (m : List (String × DatasetType)) {n : String},
      n ∈ alistKeys m → n ∈ alistKeys (registerTypes l m) := by
  intro l
  induction l with
  | nil => intro m n h; exact h
  | cons ds rest ih =>
      intro m n h
      exact ih _ (alistKeys_set_super _ (Or.inl h))

theorem registerTypes_keys_self :
    ∀ (l : List DatasetType) (m : List (String × DatasetType)) {ds : DatasetType},
      ds ∈ l → ds.name ∈ alistKeys (registerTypes l m) := by
  intro l
  induction l with
  | nil => intro m ds h; cases h
  | cons d rest ih =>
      intro m ds h
      rcases List.mem_cons.1 h with h | h
      · subst h
        exact registerTypes_keys_mono rest _ (alistKeys_set_super _ (Or.inr rfl))
      · exact ih _ h

theorem allDatasetTypesFold_keys_mono :
    ∀ (tds : List TaskDatasetTypes) (m : List (String × DatasetType)) {n : String},
      n ∈ alistKeys m → n ∈ alistKeys (allDatasetTypesFold m tds) := by
  intro tds
  induction tds with
  | nil => intro m n h; exact h
  | cons t rest ih =>
      intro m n h
      exact ih _ (registerTypes_keys_mono t.outputs _ (registerTypes_keys_mono t.inputs m h))

theorem allDatasetTypesFold_keys_of_mem :
    ∀ (tds : List TaskDatasetTypes) (m : List (String × DatasetType))
      {t : TaskDatasetTypes}, t ∈ tds → ∀ {ds : DatasetType},
      ds ∈ t.inputs ∨ ds ∈ t.outputs →
      ds.name ∈ alistKeys (allDatasetTypesFold m tds) := by
  intro tds
  induction tds with
  | nil => intro m t h; cases h
  | cons t' rest ih =>
      intro m t ht ds hds
      rcases List.mem_cons.1 ht with ht | ht
      · subst ht
        apply allDatasetTypesFold_keys_mono rest
        rcases hds with hds | hds
        · exact registerTypes_keys_mono t.outputs _ (registerTypes_keys_self t.inputs m hds)
        · exact registerTypes_keys_self t.outputs _ hds
      · exact ih _ ht hds

theorem foldl_insert_names_mem (l : List DatasetType) :
    ∀ (s : Finset String) (n : String),
      (n ∈ l.foldl (fun s' ds => insert ds.name s') s ↔
        n ∈ s ∨ ∃ ds ∈ l, ds.name = n) := by
  induction l with
  | nil => intro s n; simp
  | cons d rest ih =>
      intro s n
      rw [List.foldl_cons, ih]
      constructor
      · intro h
        rcases h with h | h
        · rcases Finset.mem_insert.1 h with h | h
          · exact Or.inr ⟨d, List.mem_cons.2 (Or.inl rfl), h.symm⟩
          · exact Or.inl h
        · obtain ⟨ds, hds, hn⟩ := h
          exact Or.inr ⟨ds, List.mem_cons.2 (Or.inr hds), hn⟩
      · intro h
        rcases h with h | h
        · exact Or.inl (Finset.mem_insert.2 (Or.inr h))
        · obtain ⟨ds, hds, hn⟩ := h
          rcases List.mem_cons.1 hds with hds | hds
          · subst hds
            exact Or.inl (Finset.mem_insert.2 (Or.inl hn.symm))
          · exact Or.inr ⟨ds, hds, hn⟩

theorem inputNamesFold_mem :
    ∀ (tds : List TaskDatasetTypes) (s : Finset String) (n : String),
      (n ∈ inputNamesFold s tds ↔ n ∈ s ∨ ∃ t ∈ tds, ∃ ds ∈ t.inputs, ds.name = n) := by
  intro tds
  induction tds with
  | nil => intro s n; simp [inputNamesFold]
  | cons t rest ih =>
      intro s n
      rw [inputNamesFold, ih, foldl_insert_names_mem]
      constructor
      · intro h
        rcases h with (h | h) | h
        · exact Or.inl h
        · obtain ⟨ds, hds, hn⟩ := h
          exact Or.inr ⟨t, List.mem_cons.2 (Or.inl rfl), ds, hds, hn⟩
        · obtain ⟨t', ht', ds, hds, hn⟩ := h
          exact Or.inr ⟨t', List.mem_cons.2 (Or.inr ht'), ds, hds, hn⟩
      · intro h
        rcases h with h | h
        · exact Or.inl (Or.inl h)
        · obtain ⟨t', ht', ds, hds, hn⟩ := h
          rcases List.mem_cons.1 ht' with ht' | ht'
          · subst ht'
            exact Or.inl (Or.inr ⟨ds, hds, hn⟩)
          · exact Or.inr ⟨t', ht', ds, hds, hn⟩

theorem outputNamesFold_mem :
    ∀ (tds : List TaskDatasetTypes) (s : Finset String) (n : String),
      (n ∈ outputNamesFold s tds ↔ n ∈ s ∨ ∃ t ∈ tds, ∃ ds ∈ t.outputs, ds.name = n) := by
  intro tds
  induction tds with
  | nil => intro s n; simp [outputNamesFold]
  | cons t rest ih =>
      intro s n
      rw [outputNamesFold, ih, foldl_insert_names_mem]
      constructor
      · intro h
        rcases h with (h | h) | h
        · exact Or.inl h
        · obtain ⟨ds, hds, hn⟩ := h
          exact Or.inr ⟨t, List.mem_cons.2 (Or.inl rfl), ds, hds, hn⟩
        · obtain ⟨t', ht', ds, hds, hn⟩ := h
          exact Or.inr ⟨t', List.mem_cons.2 (Or.inr ht'), ds, hds, hn⟩
      · intro h
        rcases h with h | h
        · exact Or.inl (Or.inl h)
        · obtain ⟨t', ht', ds, hds, hn⟩ := h
          rcases List.mem_cons.1 ht' with ht' | ht'
          · subst ht'
            exact Or.inl (Or.inr ⟨ds, hds, hn⟩)
          · exact Or.inr ⟨t', ht', ds, hds, hn⟩

theorem lookup_name_of_key (tds : List TaskDatasetTypes) {n : String}
    (hkey : n ∈ alistKeys (allDatasetTypesFold [] tds)) :
    ((alistFind n (allDatasetTypesFold [] tds)).getD ⟨"", ""⟩).name = n := by
  rcases hv : alistFind n (allDatasetTypesFold [] tds) with _ | v
  · exact absurd ((alistFind_eq_none_iff _ _).1 hv) (fun hh => hh hkey)
  · rw [Option.getD_some]
    exact allDatasetTypesFold_name_keyed tds [] (fun p hp => (List.not_mem_nil p hp).elim)
      _ (alistFind_mem hv)

/-- C3: no dataset type in the returned pipeline-input set shares a
name with any task's output; in particular the returned input and
output sets are disjoint by name. -/
theorem c3_pipeline_inputs_disjoint (tds : List TaskDatasetTypes) :
    ∀ d ∈ (makeFullIODatasetTypes tds).1,
      (∀ t ∈ tds, ∀ o ∈ t.outputs, d.name ≠ o.name) ∧
      (∀ d' ∈ (makeFullIODatasetTypes tds).2, d.name ≠ d'.name) := by
  intro d hd
  simp only [makeFullIODatasetTypes, Finset.mem_image] at hd
  obtain ⟨n, hn, hdn⟩ := hd
  rw [Finset.mem_sdiff] at hn
  have hin : ∃ t ∈ tds, ∃ ds ∈ t.inputs, ds.name = n := by
    rcases (inputNamesFold_mem tds ∅ n).1 hn.1 with h | h
    · exact absurd h (Finset.not_mem_empty n)
    · exact h
  have hkey : n ∈ alistKeys (allDatasetTypesFold [] tds) := by
    obtain ⟨t, ht, ds, hds, hname⟩ := hin
    rw [← hname]
    exact allDatasetTypesFold_keys_of_mem tds [] ht (Or.inl hds)
  have hdname : d.name = n := by
    rw [← hdn]
    exact lookup_name_of_key tds hkey
  constructor
  · intro t ht o ho he
    apply hn.2
    rw [outputNamesFold_mem tds ∅ n]
    exact Or.inr ⟨t, ht, o, ho, by rw [← he, hdname]⟩
  · intro d' hd' he
    simp only [makeFullIODatasetTypes, Finset.mem_image] at hd'
    obtain ⟨n', hn', hd'n⟩ := hd'
    have hout : ∃ t ∈ tds, ∃ ds ∈ t.outputs, ds.name = n' := by
      rcases (outputNamesFold_mem tds ∅ n').1 hn' with h | h
      · exact absurd h (Finset.not_mem_empty n')
      · exact h
    have hkey' : n' ∈ alistKeys (allDatasetTypesFold [] tds) := by
      obtain ⟨t, ht, ds, hds, hname⟩ := hout
      rw [← hname]
      exact allDatasetTypesFold_keys_of_mem tds [] ht (Or.inr hds)
    have hd'name : d'.name = n' := by
      rw [← hd'n]
      exact lookup_name_of_key tds hkey'
    apply hn.2
    rw [outputNamesFold_mem tds ∅ n]
    obtain ⟨t, ht, ds, hds, hname⟩ := hout
    refine Or.inr ⟨t, ht, ds, hds, ?_⟩
    rw [hname, ← hd'name, ← he, hdname]

/-- Witness for C3 at a concrete input. -/
theorem c3_pipeline_inputs_disjoint_witness :
    dsRawW ∈ (makeFullIODatasetTypes [tW]).1 ∧
    (∀ t ∈ [tW], ∀ o ∈ t.outputs, dsRawW.name ≠ o.name) :=
  ⟨by decide, (c3_pipeline_inputs_disjoint [tW] dsRawW (by decide)).1⟩
